import Mathlib

/-!
# Target_Scanline: tiled scanline frame renderer

A shallow embedding of `synfig-core/src/synfig/target_scanline.cpp`
(`Target_Scanline::call_renderer`, `render`, `add_frame`,
`process_block_alpha`) and theorems about the block geometry, the split
decision, the alpha modes, the order of the calls made to the sink, the
viewport normalisation and the failure handling.

C++ `int` values are integers of `Int` kept in the 32-bit range: every `int`
operation of the source is followed by `wrap_int`, the two's-complement
reduction (what the compiled code computes where the C++ standard leaves signed
overflow undefined), and `/` on `int` is the truncating `Int.tdiv`. The
division `pixel_rendering_limit_ / desc.get_w()` is undefined for width 0; the
theorems below are about descriptors with width > 0.

Calls to code that is not in this file of the source (the sink methods of the
concrete target, the progress callback, the canvas, the renderer registry and
the engine) are recorded in a trace, and what they answer is a parameter
(`World`) that may depend on all the calls made before.
-/

namespace TargetScanline

/-! ## Machine integers -/

/-- Reduction of an integer to the 32-bit two's-complement range. -/
def wrap_int (x : Int) : Int := (x + 2147483648) % 4294967296 - 2147483648

/-- The value is representable as a C++ `int`. -/
def is_int (x : Int) : Prop := -2147483648 ≤ x ∧ x ≤ 2147483647

instance (x : Int) : Decidable (is_int x) := by unfold is_int; exact inferInstance

/-- C++ `a + b` on `int`. -/
def int_add (a b : Int) : Int := wrap_int (a + b)

/-- C++ `a - b` on `int`. -/
def int_sub (a b : Int) : Int := wrap_int (a - b)

/-- C++ `a * b` on `int`. -/
def int_mul (a b : Int) : Int := wrap_int (a * b)

/-- C++ `a / b` on `int`: the quotient truncated towards zero. -/
def int_div (a b : Int) : Int := wrap_int (Int.tdiv a b)

/-! ## Block geometry of `render` (lines 142-147 and 184-199) -/

/-- Line 142: `const int total_pixels = desc.get_w() * desc.get_h();` -/
def total_pixels (w h : Int) : Int := int_mul w h

/-- Line 143: `pixel_rendering_limit_ > 0 && total_pixels > pixel_rendering_limit_`. -/
def is_rendering_split (limit w h : Int) : Bool :=
  decide (limit > 0) && decide (total_pixels w h > limit)

/-- Line 145: `std::max(1, pixel_rendering_limit_ / desc.get_w())`. -/
def rowheight (limit w : Int) : Int := max 1 (int_div limit w)

/-- Line 146: `1 + desc.get_h() / rowheight`. -/
def rows (limit w h : Int) : Int := int_add 1 (int_div h (rowheight limit w))

/-- Line 147: `desc.get_h() - (rows - 1) * rowheight`. -/
def lastrowheight (limit w h : Int) : Int :=
  int_sub h (int_mul (int_sub (rows limit w h) 1) (rowheight limit w))

/-- A row block: the arguments `y` and `h` of `set_subwindow(0, y, w, h)`. -/
structure Block where
  y_offset : Int
  height : Int
  deriving DecidableEq, Repr

/-- Lines 186-199: the sub-window of iteration `i` of the block loop, `none`
when the loop leaves through `break` (last index with `lastrowheight == 0`). -/
def block_at (rh rws lrh i : Int) : Option Block :=
  let y_offset := int_mul i rh
  if i = int_sub rws 1 then
    if lrh = 0 then none else some ⟨y_offset, lrh⟩
  else
    some ⟨y_offset, rh⟩

/-- Lines 184-199: `for(int i=0; i < rows; ++i)`, collecting the sub-windows
that get rendered. The first argument bounds the number of iterations. -/
def block_loop (rh rws lrh : Int) : Nat → Int → List Block
  | 0, _ => []
  | fuel + 1, i =>
    if i < rws then
      match block_at rh rws lrh i with
      | none => []
      | some b => b :: block_loop rh rws lrh fuel (int_add i 1)
    else []

/-- Blocks rendered for one frame: the loop run from `i = 0`; `rows`
iterations are all the loop can make. -/
def rendered_blocks (limit w h : Int) : List Block :=
  block_loop (rowheight limit w) (rows limit w h) (lastrowheight limit w h)
    (rows limit w h).toNat 0

/-- Consecutive blocks covering `[s, e)`: each block starts where the previous
one ends and has positive height. -/
def tiles : Int → List Block → Int → Prop
  | s, [], e => s = e
  | s, b :: bs, e => b.y_offset = s ∧ 0 < b.height ∧ tiles (s + b.height) bs e

/-! ## Data model -/

/-- `synfig::Time`, a wrapper of a floating-point number of seconds. -/
abbrev Time := ℚ

/-- `synfig::Vector` (also `Point`): the two coordinates are `Real` in the
source and are taken here in exact arithmetic. -/
structure Vector where
  x : ℚ
  y : ℚ
  deriving DecidableEq

/-- `synfig::Color`: four `float` channels. The code below only copies channels
and stores the constant `1.f`; no arithmetic is done on them. -/
structure Color where
  r : ℚ
  g : ℚ
  b : ℚ
  a : ℚ
  deriving DecidableEq

/-- `synfig::Matrix`, the 3x3 matrix whose fields `call_renderer` assigns. -/
structure Matrix where
  m00 : ℚ
  m01 : ℚ
  m02 : ℚ
  m10 : ℚ
  m11 : ℚ
  m12 : ℚ
  m20 : ℚ
  m21 : ℚ
  m22 : ℚ
  deriving DecidableEq

/-- Modelled from the spec: the default constructor of `synfig::Matrix` is not
under src; the matrix declared by `Matrix m;` is the identity ("identity except
for the entries it sets"). -/
def Matrix.identity : Matrix := ⟨1, 0, 0, 0, 1, 0, 0, 0, 1⟩

/-- Modelled from the spec: applying a matrix to a point is not under src; the
affine map is `(x, y) -> (m00*x + m10*y + m20, m01*x + m11*y + m21)`, which is
`(m00*x + m20, m11*y + m21)` for the matrices `call_renderer` builds. -/
def Matrix.apply (m : Matrix) (p : Vector) : Vector :=
  ⟨m.m00 * p.x + m.m10 * p.y + m.m20, m.m01 * p.x + m.m11 * p.y + m.m21⟩

/-- `synfig::RendDesc`, the fields `target_scanline.cpp` reads. -/
structure RendDesc where
  w : Int
  h : Int
  tl : Vector
  br : Vector
  frame_start : Int
  frame_end : Int
  bg_color : Color
  outline_grow : ℚ
  deriving DecidableEq

/-- Modelled from the spec: `RendDesc::set_subwindow(x, y, w, h)` is not under
src; it is the "subwindow operation that narrows width/height/offset for a
block": the descriptor takes the pixel size `w` x `h` and its viewport becomes
the sub-rectangle at pixel offset `(x, y)`, in pixels of the old descriptor. -/
def RendDesc.set_subwindow (d : RendDesc) (x y w h : Int) : RendDesc :=
  let pw : ℚ := (d.br.x - d.tl.x) / d.w
  let ph : ℚ := (d.br.y - d.tl.y) / d.h
  { d with
    w := w
    h := h
    tl := ⟨d.tl.x + pw * x, d.tl.y + ph * y⟩
    br := ⟨d.tl.x + pw * (x + w), d.tl.y + ph * (y + h)⟩ }

/-- The state of a `rendering::SurfaceResource` that the code observes: its
size, set by `create(w, h)` and cleared by `reset()`. -/
structure SurfaceResource where
  w : Int
  h : Int
  deriving DecidableEq

/-- `synfig::Surface` read through a `LockRead<SurfaceSW>`: `pixel y i` is
`surface[y][i]`. -/
structure Surface where
  w : Int
  h : Int
  pixel : Int → Int → Color

/-- `RectInt(VectorInt(), size)`: the two corners given to the constructor. -/
structure RectInt where
  p0 : Int × Int
  p1 : Int × Int
  deriving DecidableEq

/-- `Rect(p0, p1)`: the two corners given to the constructor. -/
structure Rect where
  p0 : Vector
  p1 : Vector
  deriving DecidableEq

/-- A node of the render task graph: a task built by the scene, or a
`TaskTransformationAffine` with its matrix and its sub-task. -/
inductive TaskNode where
  | scene (id : Nat)
  | transformation_affine (matrix : Matrix) (sub_task : TaskNode)
  deriving DecidableEq

/-- A `rendering::Task` as handed to the engine: the node and the three fields
`call_renderer` assigns (lines 111-113). -/
structure Task where
  node : TaskNode
  target_surface : SurfaceResource
  target_rect : RectInt
  source_rect : Rect
  deriving DecidableEq

/-- `TargetAlphaMode`. -/
inductive AlphaMode where
  | FILL
  | EXTRACT
  | REDUCE
  | KEEP
  deriving DecidableEq

/-- A value thrown inside `render`: a `synfig::String`, `std::bad_alloc`, or
anything else (told apart by a tag). -/
inductive Thrown where
  | string (s : String)
  | bad_alloc
  | unknown (tag : Nat)
  deriving DecidableEq

/-- The messages passed to `ProgressCallback::error`. -/
inductive Message where
  | target_initialization_failure
  | render_panic_on_start_frame
  | accelerated_renderer_failure
  | cannot_read_surface
  | bad_surface
  | unable_to_put_surface_on_target
  | caught_string (s : String)
  | ran_out_of_memory
  | caught_unknown_error_rethrowing
  | add_frame_panic_on_start_frame
  | start_scanline_returned_nullptr
  | panic_on_end_scanline
  deriving DecidableEq

/-- The calls `render` makes to its collaborators, in the order made. -/
inductive Event where
  | init
  | next_frame
  | amount_complete (current total : Int)
  | error (m : Message)
  | get_time
  | set_time (t : Time)
  | load_resources (t : Time)
  | set_outline_grow (g : ℚ)
  | info (blocks rh lrh : Int)
  | start_frame
  | surface_reset
  | call_renderer (renddesc : RendDesc)
  | surface_create (w h : Int)
  | build_rendering_task
  | get_renderer (engine : String)
  | run (task : Task)
  | lock_read
  | start_scanline (row : Int)
  | write_scanline (row : Int) (data : List Color)
  | end_scanline
  | end_frame
  deriving DecidableEq

/-- The calls made so far. -/
abbrev Trace := List Event

/-- How `render` ends: it returns a boolean, lets a thrown value escape, or the
bound given to the frame loop is used up before the loop ends. -/
inductive Outcome where
  | returned (b : Bool)
  | threw (e : Thrown)
  | out_of_fuel
  deriving DecidableEq

/-- The target object and its collaborators. The members of `Target_Scanline`
and the code that is not under src (the sink methods of the concrete target,
the progress callback, `Target::next_frame`, the canvas, the renderer registry,
the engine and the surface it fills) are parameters; what a call answers may
depend on every call made before it. -/
structure World where
  desc : RendDesc
  pixel_rendering_limit : Int
  alpha_mode : AlphaMode
  engine : String
  avoid_time_sync : Bool
  has_cb : Bool
  blend : Color → Color → Color
  time_ne : Time → Time → Bool
  init : Trace → Bool
  start_frame : Trace → Bool
  start_scanline : Trace → Int → Bool
  end_scanline : Trace → Bool
  amount_complete : Trace → Int → Int → Bool
  next_frame : Trace → Time × Int
  get_time : Trace → Time
  build_rendering_task : Trace → Option Nat
  get_renderer : Trace → String → Bool
  create_throws : Trace → Option Thrown
  run_throws : Trace → Task → Option Thrown
  lock_read : Trace → Bool
  pixel : Trace → Int → Int → Color

/-! ## Sequencing -/

/-- A piece of `render`: given the calls made so far, the calls it makes, with
its value or with the way `render` ends inside it. -/
def Run (α : Type) : Type := Trace → List Event × Except Outcome α

/-- Sequencing of two pieces: the second one runs after the calls of the
first, unless `render` ended inside the first. -/
def Run.bind {α β : Type} (m : Run α) (f : α → Run β) : Run β := fun tr =>
  match (m tr).2 with
  | Except.ok a => ((m tr).1 ++ (f a (tr ++ (m tr).1)).1, (f a (tr ++ (m tr).1)).2)
  | Except.error o => ((m tr).1, Except.error o)

instance : Monad Run where
  pure a := fun _ => ([], Except.ok a)
  bind := Run.bind

/-- Record a call. -/
def emit (e : Event) : Run Unit := fun _ => ([e], Except.ok ())

/-- Record a call and take its answer, which may depend on the calls before. -/
def call {α : Type} (e : Event) (answer : Trace → α) : Run α :=
  fun tr => ([e], Except.ok (answer tr))

/-- Read a value that may depend on the calls made so far. -/
def ask {α : Type} (answer : Trace → α) : Run α := fun tr => ([], Except.ok (answer tr))

/-- End `render` here: `return b;` inside `render`, or a `throw`. -/
def leave {α : Type} (o : Outcome) : Run α := fun _ => ([], Except.error o)

/-- Record a call that may throw. -/
def call_throwing (e : Event) (throws : Trace → Option Thrown) : Run Unit := fun tr =>
  match throws tr with
  | none => ([e], Except.ok ())
  | some t => ([e], Except.error (Outcome.threw t))

/-- The statement `if(cb) cb->error(m);`. -/
def report (W : World) (m : Message) : Run Unit :=
  if W.has_cb = true then emit (Event.error m) else pure ()

/-! ## `Target_Scanline::call_renderer` (lines 83-120) -/

/-- Line 97: the text `strprintf(_("Renderer '%s' not found"), engine)`. -/
def renderer_not_found (engine : String) : String :=
  "Renderer \x27" ++ engine ++ "\x27 not found"

/-- Lines 99-109, the viewport normalisation: from the corners `p0`, `p1` of
the descriptor to the matrix of the inserted transformation (`none` when no
node is inserted) and the corners after the swaps. -/
def normalize (p0 p1 : Vector) : Option Matrix × Vector × Vector :=
  if p0.x > p1.x ∨ p0.y > p1.y then
    let m := Matrix.identity
    let s1 : Matrix × Vector × Vector :=
      if p0.x > p1.x then
        ({ m with m00 := -1, m20 := p0.x + p1.x }, ⟨p1.x, p0.y⟩, ⟨p0.x, p1.y⟩)
      else (m, p0, p1)
    let s2 : Matrix × Vector × Vector :=
      if s1.2.1.y > s1.2.2.y then
        ({ s1.1 with m11 := -1, m21 := s1.2.1.y + s1.2.2.y },
          ⟨s1.2.1.x, s1.2.2.y⟩, ⟨s1.2.2.x, s1.2.1.y⟩)
      else s1
    (some s2.1, s2.2.1, s2.2.2)
  else (none, p0, p1)

/-- Lines 99-113: the task handed to the engine, from the task the scene built,
the created surface and the descriptor. -/
def prepare_task (scene_task : Nat) (surface : SurfaceResource) (renddesc : RendDesc) : Task :=
  let n := normalize renddesc.tl renddesc.br
  let node : TaskNode :=
    match n.1 with
    | some m => TaskNode.transformation_affine m (TaskNode.scene scene_task)
    | none => TaskNode.scene scene_task
  { node := node
    target_surface := surface
    target_rect := ⟨(0, 0), (surface.w, surface.h)⟩
    source_rect := ⟨n.2.1, n.2.2⟩ }

/-- `Target_Scanline::call_renderer`: the value returned and the surface as
`create` left it. -/
def call_renderer (W : World) (renddesc : RendDesc) : Run (Bool × SurfaceResource) := do
  emit (Event.call_renderer renddesc)
  call_throwing (Event.surface_create renddesc.w renddesc.h) W.create_throws
  let surface : SurfaceResource := ⟨renddesc.w, renddesc.h⟩
  let task ← call Event.build_rendering_task W.build_rendering_task
  match task with
  | some scene_task =>
    let renderer ← call (Event.get_renderer W.engine) (fun tr => W.get_renderer tr W.engine)
    if renderer = false then
      leave (Outcome.threw (Thrown.string (renderer_not_found W.engine)))
    else
      let t := prepare_task scene_task surface renddesc
      call_throwing (Event.run t) (fun tr => W.run_throws tr t)
      pure (true, surface)
  | none => pure (true, surface)

/-! ## `Target_Scanline::process_block_alpha` (lines 289-340) -/

/-- Modelled from the spec: `sizeof(Color)`. The type `Color` is not under src;
a pixel is a "4-channel value (R,G,B,A)", and the channels are `float` in the
code (`float a = surface[y][i].get_a()`), 16 bytes in all. -/
def sizeof_Color : Int := 16

/-- Line 292: `int rowspan = sizeof(Color) * width;`, the byte count kept in an
`int`. -/
def rowspan (width : Int) : Int := int_mul sizeof_Color width

/-- Line 328: the number of whole pixels that `memcpy(colordata, surface[y],
rowspan)` copies: the `int` is converted to the unsigned 64-bit `size_t` byte
count, `sizeof(Color)` bytes a pixel. -/
def copied_pixels (width : Int) : Nat :=
  ((rowspan width % 18446744073709551616) / sizeof_Color).toNat

/-- Lines 305-330, one row: the pixels stored in the scanline buffer from row
`y` of the surface, case by case of the `switch`: the three loops
`for(int i = 0; i < width; i++)` write `width` pixels, the `memcpy` of `KEEP`
writes `rowspan` bytes. -/
def scanline_data (W : World) (s : Surface) (y width : Int) : List Color :=
  match W.alpha_mode with
  | AlphaMode.FILL =>
    (List.range width.toNat).map
      (fun (i : Nat) => W.blend (s.pixel y (i : Int)) W.desc.bg_color)
  | AlphaMode.EXTRACT =>
    (List.range width.toNat).map
      (fun (i : Nat) =>
        (⟨(s.pixel y (i : Int)).a, (s.pixel y (i : Int)).a, (s.pixel y (i : Int)).a,
          (s.pixel y (i : Int)).a⟩ : Color))
  | AlphaMode.REDUCE =>
    (List.range width.toNat).map
      (fun (i : Nat) => { s.pixel y (i : Int) with a := 1 })
  | AlphaMode.KEEP =>
    (List.range (copied_pixels width)).map (fun (i : Nat) => s.pixel y (i : Int))

/-- Lines 295-338: `for(int y = 0; y < height; y++, pen.inc_y())`. The value
is `false` when the function returns `false` inside the loop. The first
argument bounds the number of iterations. -/
def scanline_loop (W : World) (s : Surface) (width height yOffset : Int) :
    Nat → Int → Run Bool
  | 0, y => if y < height then leave Outcome.out_of_fuel else pure true
  | fuel + 1, y =>
    if y < height then do
      let row := int_add y yOffset
      let colordata ← call (Event.start_scanline row) (fun tr => W.start_scanline tr row)
      if colordata = false then
        report W Message.start_scanline_returned_nullptr
        pure false
      else
        emit (Event.write_scanline row (scanline_data W s y width))
        let ended ← call Event.end_scanline W.end_scanline
        if ended = false then
          report W Message.panic_on_end_scanline
          pure false
        else
          scanline_loop W s width height yOffset fuel (int_add y 1)
    else pure true

/-- `Target_Scanline::process_block_alpha`; `height` iterations are all the
loop can make. -/
def process_block_alpha (W : World) (s : Surface) (width height yOffset : Int) : Run Bool :=
  scanline_loop W s width height yOffset height.toNat 0

/-! ## `Target_Scanline::add_frame` (lines 271-287) -/

/-- `Target_Scanline::add_frame`. -/
def add_frame (W : World) (s : Surface) : Run Bool := do
  let started ← call Event.start_frame W.start_frame
  if started = false then
    report W Message.add_frame_panic_on_start_frame
    pure false
  else
    let done ← process_block_alpha W s s.w s.h 0
    if done = false then
      pure false
    else
      emit Event.end_frame
      pure true

/-! ## `Target_Scanline::render` (lines 122-269) -/

/-- Line 139: `frame_end >= frame_start ? (frame_end - frame_start + 1) : 1`. -/
def total_frames (d : RendDesc) : Int :=
  if d.frame_end ≥ d.frame_start then int_add (int_sub d.frame_end d.frame_start) 1 else 1

/-- Lines 209-217: the surface is locked for reading and its rows are
streamed, for the block at `y_offset` of descriptor `blockrd`. -/
def stream_block (W : World) (surface : SurfaceResource) (blockrd : RendDesc)
    (y_offset : Int) : Run Unit := do
  let lock ← call Event.lock_read W.lock_read
  if lock = false then
    report W Message.cannot_read_surface
    leave (Outcome.returned false)
  else
    let pixels ← ask W.pixel
    let s : Surface := ⟨surface.w, surface.h, pixels⟩
    let done ← process_block_alpha W s s.w blockrd.h y_offset
    if done = false then
      leave (Outcome.returned false)
    else pure ()

/-- Lines 184-219: the block loop `for(int i=0; i < rows; ++i)`. The first
argument bounds the number of iterations. -/
def split_loop (W : World) (rh rws lrh : Int) : Nat → Int → Run Unit
  | 0, i => if i < rws then leave Outcome.out_of_fuel else pure ()
  | fuel + 1, i =>
    if i < rws then do
      emit Event.surface_reset
      match block_at rh rws lrh i with
      | none => pure ()
      | some b =>
        let blockrd := W.desc.set_subwindow 0 b.y_offset W.desc.w b.height
        let r ← call_renderer W blockrd
        if r.1 = false then
          report W Message.accelerated_renderer_failure
          leave (Outcome.returned false)
        else
          stream_block W r.2 blockrd b.y_offset
          split_loop W rh rws lrh fuel (int_add i 1)
    else pure ()

/-- Lines 169-223: one frame on the split path; `rows` iterations are all the
block loop can make. -/
def split_frame (W : World) : Run Unit := do
  let rh := rowheight W.pixel_rendering_limit W.desc.w
  let rws := rows W.pixel_rendering_limit W.desc.w W.desc.h
  let lrh := lastrowheight W.pixel_rendering_limit W.desc.w W.desc.h
  emit (Event.info (int_sub rws 1) rh lrh)
  let started ← call Event.start_frame W.start_frame
  if started = false then
    report W Message.render_panic_on_start_frame
    leave (Outcome.returned false)
  else
    split_loop W rh rws lrh rws.toNat 0
    emit Event.surface_reset
    emit Event.end_frame

/-- Lines 224-249: one frame on the normal path. -/
def whole_frame (W : World) : Run Unit := do
  let r ← call_renderer W W.desc
  if r.1 = false then
    report W Message.accelerated_renderer_failure
    leave (Outcome.returned false)
  else
    let lock ← call Event.lock_read W.lock_read
    if lock = false then
      report W Message.bad_surface
      leave (Outcome.returned false)
    else
      let pixels ← ask W.pixel
      let s : Surface := ⟨r.2.w, r.2.h, pixels⟩
      let added ← add_frame W s
      if added = false then
        report W Message.unable_to_put_surface_on_target
        leave (Outcome.returned false)
      else pure ()

/-- Lines 168-250: the frame is rendered on the split path or on the normal
one. -/
def frame_body (W : World) : Run Unit :=
  if is_rendering_split W.pixel_rendering_limit W.desc.w W.desc.h = true then
    split_frame W
  else
    whole_frame W

/-- Lines 161-166: the scene is brought to the time of the frame. -/
def sync_scene (W : World) (t : Time) : Run Unit := do
  let differs ←
    (if W.avoid_time_sync = false then pure true
      else call Event.get_time (fun tr => W.time_ne (W.get_time tr) t) : Run Bool)
  (if differs = true then do
      emit (Event.set_time t)
      emit (Event.load_resources t)
    else pure () : Run Unit)
  emit (Event.set_outline_grow W.desc.outline_grow)

/-- Lines 153-250: one pass through the body of the frame loop; the value is
`frames`, the number of frames left. -/
def frame_iteration (W : World) : Run Int := do
  let nf ← call Event.next_frame W.next_frame
  let t := nf.1
  let frames := nf.2
  let total := total_frames W.desc
  let go_on ←
    (if W.has_cb = true then
      call (Event.amount_complete (int_sub total frames) total)
        (fun tr => W.amount_complete tr (int_sub total frames) total)
    else pure true : Run Bool)
  if go_on = false then
    leave (Outcome.returned false)
  else
    sync_scene W t
    frame_body W
    pure frames

/-- Lines 152-251: the loop `do ... while(frames);`. The first argument bounds
the number of frames. -/
def frame_loop (W : World) : Nat → Run Unit
  | 0 => leave Outcome.out_of_fuel
  | fuel + 1 => do
    let frames ← frame_iteration W
    if frames ≠ 0 then frame_loop W fuel else pure ()

/-- Lines 253-268: the three `catch` clauses and the final `return true`,
applied to the calls made up to the end of the `try` block and to the way the
block ended. -/
def catch_clauses (W : World) (tr : Trace) : Except Outcome Unit → Trace × Outcome
  | Except.ok _ => (tr, Outcome.returned true)
  | Except.error (Outcome.threw (Thrown.string s)) =>
    (tr ++ (report W (Message.caught_string s) tr).1, Outcome.returned false)
  | Except.error (Outcome.threw Thrown.bad_alloc) =>
    (tr ++ (report W Message.ran_out_of_memory tr).1, Outcome.returned false)
  | Except.error (Outcome.threw (Thrown.unknown tag)) =>
    (tr ++ (report W Message.caught_unknown_error_rethrowing tr).1,
      Outcome.threw (Thrown.unknown tag))
  | Except.error o => (tr, o)

/-- `Target_Scanline::render`: all the calls made, and how it ends. The
argument `fuel` bounds the number of frames of the loop. -/
def render (W : World) (fuel : Nat) : Trace × Outcome :=
  if W.init [] = false then
    ([Event.init] ++ (report W Message.target_initialization_failure [Event.init]).1,
      Outcome.returned false)
  else
    catch_clauses W ([Event.init] ++ (frame_loop W fuel [Event.init]).1)
      (frame_loop W fuel [Event.init]).2

/-! ## Calls of a run without failure -/

/-- Lines 297-332 for a row `y` whose `start_scanline` and `end_scanline`
succeed: the three steps made for the row. -/
def row_calls (W : World) (s : Surface) (width yOffset : Int) (y : Nat) : List Event :=
  [Event.start_scanline (int_add y yOffset),
   Event.write_scanline (int_add y yOffset) (scanline_data W s y width),
   Event.end_scanline]

/-- A call to the sink: `start_frame`, `start_scanline`, `end_scanline` or
`end_frame`. -/
def is_sink_call : Event → Bool
  | Event.start_frame => true
  | Event.start_scanline _ => true
  | Event.end_scanline => true
  | Event.end_frame => true
  | _ => false

/-- A call to `call_renderer` or to the sink. -/
def is_render_or_sink_call : Event → Bool
  | Event.call_renderer _ => true
  | e => is_sink_call e

/-- Lines 186-217 for a block rendered and streamed without failure: the call
to `call_renderer` with the sub-window of the block, then the calls to the sink
for the rows of the block. -/
def block_calls (W : World) (b : Block) : List Event :=
  Event.call_renderer (W.desc.set_subwindow 0 b.y_offset W.desc.w b.height) ::
    (List.range b.height.toNat).flatMap
      (fun (y : Nat) => [Event.start_scanline (int_add y b.y_offset), Event.end_scanline])

/-! ## Calls that fail -/

/-- None of the calls `evs`, made after the calls `tr`, is singled out by
`bad`; `bad tr e` tells whether the call `e` made after the calls `tr` is one
of the calls looked for (a call that failed). -/
def Clean (bad : Trace → Event → Bool) : Trace → List Event → Prop
  | _, [] => True
  | tr, e :: es => bad tr e = false ∧ Clean bad (tr ++ [e]) es

/-- Among the calls `evs`, made after the calls `tr`, there is a first one
singled out by `bad`, and the calls made after it satisfy `T`. -/
def Broken (bad : Trace → Event → Bool) (T : List Event → Prop) :
    Trace → List Event → Prop
  | _, [] => False
  | tr, e :: es =>
    (bad tr e = true ∧ T es) ∨ (bad tr e = false ∧ Broken bad T (tr ++ [e]) es)

/-- Every call a piece makes satisfies `P`, whatever was called before. -/
def Emits (P : Event → Bool) {α : Type} (m : Run α) : Prop :=
  ∀ tr, ∀ e ∈ (m tr).1, P e = true

/-- The calls `tr` are those of `init` and of `k` passes through the body of
the frame loop, each of which ran to its end with `frames` not 0 (so that the
loop goes on) and made `end_frame` as its last call. -/
inductive FramesDone (W : World) : Nat → Trace → Prop where
  | start : FramesDone W 0 [Event.init]
  | frame {k : Nat} {tr evs : List Event} {frames : Int} :
      FramesDone W k tr → frame_iteration W tr = (evs, Except.ok frames) → frames ≠ 0 →
      evs.getLast? = some Event.end_frame → FramesDone W (k + 1) (tr ++ evs)

/-- The call is a call to `start_scanline` that answers null. -/
def null_scanline (W : World) (tr : Trace) : Event → Bool
  | Event.start_scanline row => !W.start_scanline tr row
  | _ => false

/-- The call is an error report made through the callback. -/
def is_error : Event → Bool
  | Event.error _ => true
  | _ => false

/-- The calls `process_block_alpha` makes after a `start_scanline` that
answered null (lines 300-302): the report, when there is a callback. -/
def null_report (W : World) : List Event :=
  if W.has_cb = true then [Event.error Message.start_scanline_returned_nullptr] else []

/-- An error report of a job that has a callback. -/
def is_report (W : World) (e : Event) : Bool := W.has_cb && is_error e

/-- Calls that are error reports only, the first of them the report of the
null scanline when there is a callback; none without a callback. -/
def after_null (W : World) (b : List Event) : Prop :=
  (∀ e ∈ b, is_report W e = true) ∧ b.head? = (null_report W).head?

/-- The value of a piece tells a failure (`F`), or `render` returns false
inside the piece. -/
def Halted {α : Type} (F : α → Prop) (r : Except Outcome α) : Prop :=
  (∃ a, r = Except.ok a ∧ F a) ∨ r = Except.error (Outcome.returned false)

/-- Whatever was called before, either no call of the piece is singled out by
`bad`, or one is, the calls after it satisfy `T` and the piece ends in
failure. -/
def StopsAt (bad : Trace → Event → Bool) (T : List Event → Prop) {α : Type}
    (F : α → Prop) (m : Run α) : Prop :=
  ∀ tr, Clean bad tr (m tr).1 ∨ (Broken bad T tr (m tr).1 ∧ Halted F (m tr).2)

/-- The call is one of those made by `call_renderer` or to bring the scene to
the time of the frame. -/
def is_setup_call : Event → Bool
  | Event.call_renderer _ => true
  | Event.surface_create _ _ => true
  | Event.build_rendering_task => true
  | Event.get_renderer _ => true
  | Event.run _ => true
  | Event.get_time => true
  | Event.set_time _ => true
  | Event.load_resources _ => true
  | Event.set_outline_grow _ => true
  | _ => false

/-! ## Example jobs -/

/-- Number of `next_frame` calls made so far. -/
def frames_begun (tr : Trace) : Nat := tr.count Event.next_frame

/-- An example job in which every collaborator succeeds: 5 frames of 2 x 3
pixels with viewport (0,0)..(2,3), a budget of 4 pixels (the frame is split in
a block of 2 rows and a last block of 1 row), alpha mode `KEEP`, a progress
callback that never cancels. -/
def example_world : World :=
  { desc := ⟨2, 3, ⟨0, 0⟩, ⟨2, 3⟩, 0, 4, ⟨0, 0, 0, 1⟩, 0⟩
    pixel_rendering_limit := 4
    alpha_mode := AlphaMode.KEEP
    engine := "software"
    avoid_time_sync := false
    has_cb := true
    blend := fun c _ => c
    time_ne := fun a b => decide (a ≠ b)
    init := fun _ => true
    start_frame := fun _ => true
    start_scanline := fun _ _ => true
    end_scanline := fun _ => true
    amount_complete := fun _ _ _ => true
    next_frame := fun tr => (0, 4 - (frames_begun tr : Int))
    get_time := fun _ => 0
    build_rendering_task := fun _ => some 0
    get_renderer := fun _ _ => true
    create_throws := fun _ => none
    run_throws := fun _ _ => none
    lock_read := fun _ => true
    pixel := fun _ y i => ⟨y, i, 0, 1 / 2⟩ }

/-- The example job with a frame of 2 x 1 pixels and splitting disabled (budget
0). -/
def small_world : World :=
  { example_world with
    desc := ⟨2, 1, ⟨0, 0⟩, ⟨2, 1⟩, 0, 4, ⟨0, 0, 0, 1⟩, 0⟩
    pixel_rendering_limit := 0
    pixel := fun _ _ _ => ⟨0, 0, 0, 1⟩ }

/-- The example job with a frame of 1 x 2147483647 pixels and a budget of 1
pixel: a split frame whose height is the largest `int`. -/
def tall_world : World :=
  { example_world with
    desc := ⟨1, 2147483647, ⟨0, 0⟩, ⟨1, 1⟩, 0, 4, ⟨0, 0, 0, 1⟩, 0⟩
    pixel_rendering_limit := 1 }

/-- The example job with a frame of 50000 x 50000 pixels and the default
budget of 9000000 pixels. -/
def huge_world : World :=
  { example_world with
    desc := ⟨50000, 50000, ⟨0, 0⟩, ⟨1, 1⟩, 0, 4, ⟨0, 0, 0, 1⟩, 0⟩
    pixel_rendering_limit := 9000000 }

/-- A surface of 268435457 x 1 pixels whose pixel at column `i` has red
channel `i`. -/
def wide_surface : Surface := ⟨268435457, 1, fun _ i => ⟨i, 0, 0, 1 / 2⟩⟩

/-- The example job with alpha mode `REDUCE`. -/
def reduce_world : World := { example_world with alpha_mode := AlphaMode.REDUCE }

/-- The small example job with a sink whose `start_scanline` answers null. -/
def null_world : World :=
  { small_world with start_scanline := fun _ _ => false }

/-- The calls of the job with the failing sink up to the `start_frame` of its
first frame. -/
def null_calls : Trace :=
  [Event.init, Event.next_frame, Event.amount_complete 1 5, Event.set_time 0,
    Event.load_resources 0, Event.set_outline_grow 0,
    Event.call_renderer small_world.desc, Event.surface_create 2 1,
    Event.build_rendering_task, Event.get_renderer "software",
    Event.run ⟨TaskNode.scene 0, ⟨2, 1⟩, ⟨(0, 0), (2, 1)⟩, ⟨⟨0, 0⟩, ⟨2, 1⟩⟩⟩,
    Event.lock_read, Event.start_frame]

/-- The small example job with an engine name that does not resolve. -/
def no_engine_world : World :=
  { small_world with get_renderer := fun _ _ => false }

/-- The small example job with an engine that throws a value of unknown
kind (tag 7). -/
def faulty_engine_world : World :=
  { small_world with run_throws := fun _ _ => some (Thrown.unknown 7) }

/-- The calls of the small example job up to the lookup of the engine in its
first frame. -/
def engine_lookup_calls : Trace :=
  [Event.init, Event.next_frame, Event.amount_complete 1 5, Event.set_time 0,
    Event.load_resources 0, Event.set_outline_grow 0,
    Event.call_renderer small_world.desc, Event.surface_create 2 1,
    Event.build_rendering_task, Event.get_renderer "software"]

/-! ## Arithmetic lemmas -/

theorem wrap_int_of_is_int {x : Int} (h : is_int x) : wrap_int x = x := by
  unfold is_int at h
  unfold wrap_int
  omega

theorem wrap_int_eq {x : Int} (h1 : -2147483648 ≤ x) (h2 : x ≤ 2147483647) :
    wrap_int x = x := wrap_int_of_is_int ⟨h1, h2⟩

theorem is_int_wrap_int (x : Int) : is_int (wrap_int x) := by
  unfold is_int wrap_int
  omega

theorem int_div_of_nonneg {a b : Int} (ha : 0 ≤ a) (ha2 : a ≤ 2147483647) (hb : 0 < b) :
    int_div a b = a / b := by
  unfold int_div
  rw [Int.tdiv_eq_ediv ha (le_of_lt hb)]
  have h1 : 0 ≤ a / b := Int.ediv_nonneg ha (le_of_lt hb)
  have h2 : a / b ≤ a := Int.ediv_le_self b ha
  exact wrap_int_eq (by omega) (by omega)

theorem rowheight_pos (limit w : Int) : 0 < rowheight limit w := by
  unfold rowheight
  exact lt_of_lt_of_le Int.one_pos (le_max_left _ _)

theorem rowheight_le (limit w : Int) : rowheight limit w ≤ 2147483647 := by
  unfold rowheight int_div
  have h := is_int_wrap_int (Int.tdiv limit w)
  unfold is_int at h
  exact max_le (by decide) h.2


/-! ## The block loop covers the frame -/

theorem tiles_append {s m e : Int} {xs ys : List Block} (h1 : tiles s xs m) (h2 : tiles m ys e) :
    tiles s (xs ++ ys) e := by
  induction xs generalizing s with
  | nil => simp only [tiles] at h1; subst h1; simpa using h2
  | cons b bs ih =>
    simp only [tiles] at h1
    simp only [List.cons_append, tiles]
    exact ⟨h1.1, h1.2.1, ih h1.2.2⟩

theorem tiles_height_pos {s e : Int} {bs : List Block} (h : tiles s bs e) :
    ∀ b ∈ bs, 0 < b.height := by
  induction bs generalizing s with
  | nil => intro b hb; cases hb
  | cons c cs ih =>
    simp only [tiles] at h
    intro b hb
    rcases List.mem_cons.mp hb with rfl | hb
    · exact h.2.1
    · exact ih h.2.2 b hb

theorem tiles_sum {s e : Int} {bs : List Block} (h : tiles s bs e) :
    (bs.map Block.height).sum = e - s := by
  induction bs generalizing s with
  | nil => simp only [tiles] at h; subst h; simp
  | cons c cs ih =>
    simp only [tiles] at h
    simp only [List.map_cons, List.sum_cons, ih h.2.2]
    omega

theorem tiles_head {s e : Int} {bs : List Block} (h : tiles s bs e) (hse : s ≠ e) :
    (bs.head?).map Block.y_offset = some s := by
  cases bs with
  | nil => simp only [tiles] at h; exact absurd h hse
  | cons c cs => simp only [tiles] at h; simp [h.1]

theorem tiles_chain {s e : Int} {bs : List Block} (h : tiles s bs e) :
    List.Chain' (fun a b : Block => b.y_offset = a.y_offset + a.height) bs := by
  induction bs generalizing s with
  | nil => exact List.chain'_nil
  | cons c cs ih =>
    simp only [tiles] at h
    cases cs with
    | nil => exact List.chain'_singleton c
    | cons d ds =>
      have h2 := h.2.2
      simp only [tiles] at h2
      refine List.chain'_cons.mpr ⟨?_, ih h.2.2⟩
      rw [h2.1, h.1]

/-- The geometry of lines 145-147 when `1 + height / rowheight` fits in an
`int`: quotient and remainder of the height by the row height. -/
theorem geometry_in_range (limit w h : Int) (hh : 0 < h) (hmax : h ≤ 2147483647)
    (hfit : h / rowheight limit w < 2147483647) :
    rows limit w h = h / rowheight limit w + 1 ∧
    lastrowheight limit w h = h - h / rowheight limit w * rowheight limit w := by
  have hr := rowheight_pos limit w
  have hq : int_div h (rowheight limit w) = h / rowheight limit w :=
    int_div_of_nonneg (le_of_lt hh) (by omega) hr
  have hq0 : 0 ≤ h / rowheight limit w := Int.ediv_nonneg (le_of_lt hh) (le_of_lt hr)
  have hqh : h / rowheight limit w ≤ h := Int.ediv_le_self _ (le_of_lt hh)
  have hqr : h / rowheight limit w * rowheight limit w ≤ h :=
    Int.ediv_mul_le h (ne_of_gt hr)
  have hqr0 : 0 ≤ h / rowheight limit w * rowheight limit w :=
    Int.mul_nonneg hq0 (le_of_lt hr)
  have hrows : rows limit w h = h / rowheight limit w + 1 := by
    unfold rows int_add
    rw [hq, wrap_int_eq (by omega) (by omega)]
    omega
  refine ⟨hrows, ?_⟩
  unfold lastrowheight
  rw [hrows]
  have h1 : int_sub (h / rowheight limit w + 1) 1 = h / rowheight limit w := by
    unfold int_sub
    rw [wrap_int_eq (by omega) (by omega)]
    omega
  rw [h1]
  have h2 : int_mul (h / rowheight limit w) (rowheight limit w)
      = h / rowheight limit w * rowheight limit w := by
    unfold int_mul
    exact wrap_int_eq (by omega) (by omega)
  rw [h2]
  unfold int_sub
  exact wrap_int_eq (by omega) (by omega)

/-- The block loop started at index `i` with `m` full blocks still to come
covers the rows from `i * r` to `h`. -/
theorem block_loop_tiles (r h : Int) (hr : 0 < r) (hh : 0 < h) (hmax : h ≤ 2147483647)
    (hfit : h / r < 2147483647) :
    ∀ (m : Nat) (i : Int), 0 ≤ i → i + m = h / r →
      tiles (i * r) (block_loop r (h / r + 1) (h - h / r * r) (m + 1) i) h := by
  have hq0 : 0 ≤ h / r := Int.ediv_nonneg (le_of_lt hh) (le_of_lt hr)
  have hqh : h / r ≤ h := Int.ediv_le_self _ (le_of_lt hh)
  have hqr : h / r * r ≤ h := Int.ediv_mul_le h (ne_of_gt hr)
  have hlt : h < (h / r + 1) * r := Int.lt_ediv_add_one_mul_self h hr
  have hsub : int_sub (h / r + 1) 1 = h / r := by
    unfold int_sub
    rw [wrap_int_eq (by omega) (by omega)]
    omega
  intro m
  induction m with
  | zero =>
    intro i hi him
    have hiq : i = h / r := by omega
    subst hiq
    have hmul : int_mul (h / r) r = h / r * r := by
      unfold int_mul
      exact wrap_int_eq (by nlinarith) (by omega)
    simp only [block_loop, block_at, hsub, hmul]
    rw [if_pos (by omega)]
    by_cases hl : h - h / r * r = 0
    · simp only [hl, if_true, tiles]
      omega
    · simp only [hl, if_false, if_true, tiles]
      refine ⟨trivial, ?_, ?_⟩
      · omega
      · omega
  | succ m ih =>
    intro i hi him
    have hiq : i < h / r := by omega
    have hir : (i + 1) * r ≤ h / r * r :=
      Int.mul_le_mul_of_nonneg_right (by omega) (le_of_lt hr)
    have hir0 : 0 ≤ i * r := Int.mul_nonneg hi (le_of_lt hr)
    have hmul : int_mul i r = i * r := by
      unfold int_mul
      exact wrap_int_eq (by omega) (by nlinarith)
    have hadd : int_add i 1 = i + 1 := by
      unfold int_add
      exact wrap_int_eq (by omega) (by omega)
    have hne : ¬ i = h / r := by omega
    rw [block_loop]
    simp only [block_at, hsub, hmul, hadd, hne, if_false]
    rw [if_pos (by omega)]
    simp only [tiles]
    refine ⟨trivial, hr, ?_⟩
    have := ih (i + 1) (by omega) (by push_cast at him ⊢; omega)
    have e : i * r + r = (i + 1) * r := by ring
    rw [e]
    exact this

/-- The blocks rendered for a frame cover `[0, height)`. -/
theorem rendered_blocks_tiles (limit w h : Int) (hh : 0 < h) (hmax : h ≤ 2147483647)
    (hfit : h / rowheight limit w < 2147483647) :
    tiles 0 (rendered_blocks limit w h) h := by
  have hr := rowheight_pos limit w
  obtain ⟨hrows, hlast⟩ := geometry_in_range limit w h hh hmax hfit
  have hq0 : 0 ≤ h / rowheight limit w := Int.ediv_nonneg (le_of_lt hh) (le_of_lt hr)
  unfold rendered_blocks
  rw [hrows, hlast]
  have hn : (h / rowheight limit w + 1).toNat = (h / rowheight limit w).toNat + 1 := by
    omega
  rw [hn]
  have := block_loop_tiles (rowheight limit w) h hr hh hmax hfit (h / rowheight limit w).toNat 0
    (le_refl 0) (by rw [Int.toNat_of_nonneg hq0]; omega)
  simpa using this


theorem block_loop_heights (r rws lrh : Int) :
    ∀ (n : Nat) (i : Int), ∀ b ∈ block_loop r rws lrh n i, b.height = r ∨ b.height = lrh := by
  intro n
  induction n with
  | zero => intro i b hb; simp [block_loop] at hb
  | succ n ih =>
    intro i b hb
    rw [block_loop] at hb
    by_cases hi : i < rws
    · rw [if_pos hi] at hb
      cases hba : block_at r rws lrh i with
      | none => rw [hba] at hb; cases hb
      | some c =>
        rw [hba] at hb
        rcases List.mem_cons.mp hb with rfl | hb
        · unfold block_at at hba
          by_cases h1 : i = int_sub rws 1
          · rw [if_pos h1] at hba
            by_cases h2 : lrh = 0
            · rw [if_pos h2] at hba; cases hba
            · rw [if_neg h2] at hba
              cases hba
              exact Or.inr rfl
          · rw [if_neg h1] at hba
            cases hba
            exact Or.inl rfl
        · exact ih _ b hb
    · rw [if_neg hi] at hb; cases hb

/-- Whenever `1 + height / rowheight` fits in an `int` (every height below
2^31 - 1, and height 2^31 - 1 with a row height of 2 or more), the blocks
rendered by the block loop partition `[0, height)`: the first block starts at
row 0, each later block starts where the previous one ends, every rendered
block has positive height and the heights sum to the height of the frame. -/
theorem blocks_partition_in_range (limit w h : Int) (_hw : 0 < w) (hh : 0 < h)
    (hmax : h ≤ 2147483647) (hfit : h / rowheight limit w < 2147483647) :
    ((rendered_blocks limit w h).head?).map Block.y_offset = some 0 ∧
      List.Chain' (fun a b : Block => b.y_offset = a.y_offset + a.height)
        (rendered_blocks limit w h) ∧
      (∀ b ∈ rendered_blocks limit w h, 0 < b.height) ∧
      ((rendered_blocks limit w h).map Block.height).sum = h := by
  have ht := rendered_blocks_tiles limit w h hh hmax hfit
  refine ⟨tiles_head ht (by omega), tiles_chain ht, tiles_height_pos ht, ?_⟩
  rw [tiles_sum ht]; omega

/-- The example of the spec: width 2000, height 18000, budget 9000000 gives row
height 4500, 5 rows, last row height 0 and exactly 4 rendered blocks, which
partition the 18000 rows. -/
theorem blocks_partition_example :
    rowheight 9000000 2000 = 4500 ∧ rows 9000000 2000 18000 = 5 ∧
    lastrowheight 9000000 2000 18000 = 0 ∧
    rendered_blocks 9000000 2000 18000 = [⟨0, 4500⟩, ⟨4500, 4500⟩, ⟨9000, 4500⟩, ⟨13500, 4500⟩] ∧
    ((rendered_blocks 9000000 2000 18000).map Block.height).sum = 18000 :=
  ⟨by decide, by decide, by decide, by decide,
    (blocks_partition_in_range 9000000 2000 18000 (by decide) (by decide) (by decide)
      (by decide)).2.2.2⟩

/-- Claim C1, the failing input: width 1, height 2^31 - 1, budget 1. The frame
is split and the row height is 1; `rows = 1 + height / rowheight` does not fit
in an `int` and comes out as -2^31, `rows - 1` (the number of full blocks the
code logs) as 2^31 - 1; the loop `for(int i=0; i < rows; ++i)` renders no
block, so the heights of the rendered blocks sum to 0 and not to the height of
the frame. -/
theorem C1_failing_input :
    is_rendering_split 1 1 2147483647 = true ∧
    rowheight 1 1 = 1 ∧
    rows 1 1 2147483647 = -2147483648 ∧
    int_sub (rows 1 1 2147483647) 1 = 2147483647 ∧
    rendered_blocks 1 1 2147483647 = [] ∧
    ((rendered_blocks 1 1 2147483647).map Block.height).sum ≠ 2147483647 := by
  decide

/-- Claim C10. For every frame with 0 < width <= budget < width * height, every
block rendered by the block loop has at most `budget` pixels, the last block
included; and with budget 2 < width 3 (height 2, a split frame) the row height
is clamped to 1 and a rendered block has 3 pixels, more than the budget. -/
theorem C10_block_within_budget (limit w h : Int) (hw : 0 < w) (hwl : w ≤ limit)
    (_hl : limit < w * h) (hh : 0 < h) (hhi : is_int h) (hli : is_int limit) :
    (∀ b ∈ rendered_blocks limit w h, w * b.height ≤ limit) ∧
    (is_rendering_split 2 3 2 = true ∧ rowheight 2 3 = 1 ∧
      ∃ b ∈ rendered_blocks 2 3 2, (2 : Int) < 3 * b.height) := by
  refine ⟨?_, by decide⟩
  unfold is_int at hhi hli
  have hr := rowheight_pos limit w
  have hdiv : int_div limit w = limit / w := int_div_of_nonneg (by omega) hli.2 hw
  have hq1 : 1 ≤ limit / w := by
    have := Int.ediv_le_ediv hw hwl
    rwa [Int.ediv_self (ne_of_gt hw)] at this
  have hrw : rowheight limit w = limit / w := by
    unfold rowheight
    rw [hdiv]
    exact max_eq_right hq1
  have hwr : w * rowheight limit w ≤ limit := by
    rw [hrw]
    exact Int.mul_ediv_self_le (ne_of_gt hw)
  intro b hb
  by_cases hfit : h / rowheight limit w < 2147483647
  · obtain ⟨_, hlast⟩ := geometry_in_range limit w h hh hhi.2 hfit
    have hlt : h < (h / rowheight limit w + 1) * rowheight limit w :=
      Int.lt_ediv_add_one_mul_self h hr
    have hb2 := block_loop_heights _ _ _ _ _ b hb
    rcases hb2 with e | e
    · rw [e]; exact hwr
    · rw [e, hlast]
      have : h - h / rowheight limit w * rowheight limit w ≤ rowheight limit w := by
        have e2 : (h / rowheight limit w + 1) * rowheight limit w
            = h / rowheight limit w * rowheight limit w + rowheight limit w := by ring
        omega
      calc w * (h - h / rowheight limit w * rowheight limit w)
          ≤ w * rowheight limit w := Int.mul_le_mul_of_nonneg_left this (le_of_lt hw)
        _ ≤ limit := hwr
  · exfalso
    have hle : h / rowheight limit w ≤ h := Int.ediv_le_self _ (le_of_lt hh)
    have hq : int_div h (rowheight limit w) = h / rowheight limit w :=
      int_div_of_nonneg (le_of_lt hh) hhi.2 hr
    have hrows : rows limit w h = -2147483648 := by
      unfold rows int_add
      rw [hq]
      have : h / rowheight limit w = 2147483647 := by omega
      rw [this]
      decide
    unfold rendered_blocks at hb
    rw [hrows] at hb
    simp [block_loop] at hb

/-- Instance of C10 at width 1000, height 20000, budget 9000000. -/
theorem C10_block_within_budget_witness :
    rendered_blocks 9000000 1000 20000 = [⟨0, 9000⟩, ⟨9000, 9000⟩, ⟨18000, 2000⟩] ∧
    ∀ b ∈ rendered_blocks 9000000 1000 20000, 1000 * b.height ≤ 9000000 :=
  ⟨by decide,
    (C10_block_within_budget 9000000 1000 20000 (by decide) (by decide) (by decide)
      (by decide) (by decide) (by decide)).1⟩


/-- When the pixel count width * height fits in an `int`, `render` takes the
split path if and only if the budget is positive and width * height is greater
than the budget; and with budget 0 the split path is never taken, whatever the
frame size. -/
theorem split_decision_in_range (W : World) (hw : 0 < W.desc.w) (hh : 0 < W.desc.h) :
    (W.desc.w * W.desc.h ≤ 2147483647 →
      ((is_rendering_split W.pixel_rendering_limit W.desc.w W.desc.h = true ↔
          (0 < W.pixel_rendering_limit ∧ W.pixel_rendering_limit < W.desc.w * W.desc.h)) ∧
        frame_body W =
          if 0 < W.pixel_rendering_limit ∧ W.pixel_rendering_limit < W.desc.w * W.desc.h
          then split_frame W else whole_frame W)) ∧
    (W.pixel_rendering_limit = 0 →
      (is_rendering_split W.pixel_rendering_limit W.desc.w W.desc.h = false ∧
        frame_body W = whole_frame W)) := by
  constructor
  · intro hfit
    have hpos : 0 < W.desc.w * W.desc.h := Int.mul_pos hw hh
    have htp : total_pixels W.desc.w W.desc.h = W.desc.w * W.desc.h := by
      unfold total_pixels int_mul
      exact wrap_int_eq (by omega) hfit
    have hiff : is_rendering_split W.pixel_rendering_limit W.desc.w W.desc.h = true ↔
        (0 < W.pixel_rendering_limit ∧ W.pixel_rendering_limit < W.desc.w * W.desc.h) := by
      unfold is_rendering_split
      rw [htp]
      simp
    refine ⟨hiff, ?_⟩
    unfold frame_body
    by_cases hc : 0 < W.pixel_rendering_limit ∧ W.pixel_rendering_limit < W.desc.w * W.desc.h
    · rw [if_pos (hiff.mpr hc), if_pos hc]
    · rw [if_neg (fun h => hc (hiff.mp h)), if_neg hc]
  · intro h0
    have hf : is_rendering_split W.pixel_rendering_limit W.desc.w W.desc.h = false := by
      unfold is_rendering_split
      rw [h0]
      simp
    refine ⟨hf, ?_⟩
    unfold frame_body
    rw [hf]
    simp

/-- Claim C2, the failing input: width 50000, height 50000, budget 9000000.
The budget is positive and the frame has 2500000000 pixels, more than the
budget, but `total_pixels` is the `int` product -1794967296, the flag
`is_rendering_split` is false and `render` takes the normal path, not the
split path. -/
theorem C2_failing_input :
    (0 : Int) < 9000000 ∧ (9000000 : Int) < 50000 * 50000 ∧
    total_pixels 50000 50000 = -1794967296 ∧
    is_rendering_split 9000000 50000 50000 = false ∧
    frame_body huge_world = whole_frame huge_world := by
  refine ⟨by decide, by decide, by decide, by decide, ?_⟩
  unfold frame_body
  exact if_neg (by decide)

/-! ## Viewport normalisation in `call_renderer` -/

/-- Claim C5 (as amended). For every viewport with p0.x > p1.x, `call_renderer`
inserts a transformation whose matrix M has m00 = -1 and m20 = p0.x + p1.x, the
x coordinates of the corners are swapped, and M maps the corners after the swap
back to the original corners of the same name: M applied to p0' is the original
p0 and M applied to p1' is the original p1. -/
theorem C5_flip_matrix (p0 p1 : Vector) (hx : p0.x > p1.x) :
    ∃ m : Matrix, (normalize p0 p1).1 = some m ∧
      m.m00 = -1 ∧ m.m20 = p0.x + p1.x ∧
      (normalize p0 p1).2.1.x = p1.x ∧ (normalize p0 p1).2.2.x = p0.x ∧
      m.apply (normalize p0 p1).2.1 = p0 ∧
      m.apply (normalize p0 p1).2.2 = p1 := by
  have hc : p0.x > p1.x ∨ p0.y > p1.y := Or.inl hx
  by_cases hy : p0.y > p1.y
  · have hn : normalize p0 p1 =
        (some ⟨-1, 0, 0, 0, -1, 0, p0.x + p1.x, p0.y + p1.y, 1⟩,
          ⟨p1.x, p1.y⟩, ⟨p0.x, p0.y⟩) := by
      simp only [normalize, if_pos hc, if_pos hx, if_pos hy, Matrix.identity]
    rw [hn]
    refine ⟨_, rfl, rfl, rfl, rfl, rfl, ?_, ?_⟩
    · cases p0; cases p1; simp [Matrix.apply]
    · cases p0; cases p1; simp [Matrix.apply]
  · have hn : normalize p0 p1 =
        (some ⟨-1, 0, 0, 0, 1, 0, p0.x + p1.x, 0, 1⟩, ⟨p1.x, p0.y⟩, ⟨p0.x, p1.y⟩) := by
      simp only [normalize, if_pos hc, if_pos hx, if_neg hy, Matrix.identity]
    rw [hn]
    refine ⟨_, rfl, rfl, rfl, rfl, rfl, ?_, ?_⟩
    · cases p0; cases p1; simp [Matrix.apply]
    · cases p0; cases p1; simp [Matrix.apply]

/-- Instance of C5 at p0 = (1, 0), p1 = (0, 1). -/
theorem C5_flip_matrix_witness :
    ∃ m : Matrix, (normalize ⟨1, 0⟩ ⟨0, 1⟩).1 = some m ∧
      m.m00 = -1 ∧ m.m20 = (1 : ℚ) + 0 ∧
      (normalize ⟨1, 0⟩ ⟨0, 1⟩).2.1.x = 0 ∧ (normalize ⟨1, 0⟩ ⟨0, 1⟩).2.2.x = 1 ∧
      m.apply (normalize ⟨1, 0⟩ ⟨0, 1⟩).2.1 = ⟨1, 0⟩ ∧
      m.apply (normalize ⟨1, 0⟩ ⟨0, 1⟩).2.2 = ⟨0, 1⟩ :=
  C5_flip_matrix ⟨1, 0⟩ ⟨0, 1⟩ (by norm_num)

/-- Claim C5 as stated fails at p0 = (1, 0), p1 = (0, 1): the corners after the
swap are p0' = (0, 0) and p1' = (1, 1), the matrix maps p1' to (0, 1), the
original p1 and not the original p0, and p0' to (1, 0), the original p0 and not
the original p1. -/
theorem C5_counterexample :
    ∃ m : Matrix, (normalize ⟨1, 0⟩ ⟨0, 1⟩) = (some m, ⟨0, 0⟩, ⟨1, 1⟩) ∧
      m.apply ⟨1, 1⟩ = ⟨0, 1⟩ ∧ m.apply ⟨1, 1⟩ ≠ ⟨1, 0⟩ ∧
      m.apply ⟨0, 0⟩ = ⟨1, 0⟩ ∧ m.apply ⟨0, 0⟩ ≠ ⟨0, 1⟩ := by
  refine ⟨⟨-1, 0, 0, 0, 1, 0, 1, 0, 1⟩, ?_, ?_, ?_, ?_, ?_⟩
  · norm_num [normalize, Matrix.identity]
  · simp [Matrix.apply]
  · simp [Matrix.apply]
  · simp [Matrix.apply]
  · simp [Matrix.apply]


/-! ## Sequencing lemmas -/

theorem run_bind {α β : Type} (m : Run α) (f : α → Run β) (tr : Trace) :
    (m >>= f) tr =
      match (m tr).2 with
      | Except.ok a => ((m tr).1 ++ (f a (tr ++ (m tr).1)).1, (f a (tr ++ (m tr).1)).2)
      | Except.error o => ((m tr).1, Except.error o) := rfl

theorem run_bind_ok {α β : Type} {m : Run α} {f : α → Run β} {tr : Trace}
    {evs : List Event} {a : α} (h : m tr = (evs, Except.ok a)) :
    (m >>= f) tr = (evs ++ (f a (tr ++ evs)).1, (f a (tr ++ evs)).2) := by
  rw [run_bind, h]

theorem run_bind_error {α β : Type} {m : Run α} {f : α → Run β} {tr : Trace}
    {evs : List Event} {o : Outcome} (h : m tr = (evs, Except.error o)) :
    (m >>= f) tr = (evs, Except.error o) := by
  rw [run_bind, h]

@[simp] theorem run_pure {α : Type} (a : α) (tr : Trace) :
    (pure a : Run α) tr = ([], Except.ok a) := rfl

@[simp] theorem run_emit (e : Event) (tr : Trace) : emit e tr = ([e], Except.ok ()) := rfl

@[simp] theorem run_call {α : Type} (e : Event) (a : Trace → α) (tr : Trace) :
    call e a tr = ([e], Except.ok (a tr)) := rfl

@[simp] theorem run_ask {α : Type} (a : Trace → α) (tr : Trace) :
    ask a tr = ([], Except.ok (a tr)) := rfl

@[simp] theorem run_leave {α : Type} (o : Outcome) (tr : Trace) :
    (leave o : Run α) tr = ([], Except.error o) := rfl

@[simp] theorem run_emit_bind {β : Type} (e : Event) (f : Unit → Run β) (tr : Trace) :
    (emit e >>= f) tr = (e :: (f () (tr ++ [e])).1, (f () (tr ++ [e])).2) := by
  rw [run_bind_ok (run_emit e tr)]
  rfl

@[simp] theorem run_call_bind {α β : Type} (e : Event) (a : Trace → α) (f : α → Run β)
    (tr : Trace) :
    (call e a >>= f) tr = (e :: (f (a tr) (tr ++ [e])).1, (f (a tr) (tr ++ [e])).2) := by
  rw [run_bind_ok (run_call e a tr)]
  rfl

@[simp] theorem run_ask_bind {α β : Type} (a : Trace → α) (f : α → Run β) (tr : Trace) :
    (ask a >>= f) tr = f (a tr) tr := by
  rw [run_bind_ok (run_ask a tr)]
  simp

@[simp] theorem run_leave_bind {α β : Type} (o : Outcome) (f : α → Run β) (tr : Trace) :
    ((leave o : Run α) >>= f) tr = ([], Except.error o) :=
  run_bind_error (run_leave o tr)

theorem run_call_throwing_none {e : Event} {throws : Trace → Option Thrown} {tr : Trace}
    (h : throws tr = none) : call_throwing e throws tr = ([e], Except.ok ()) := by
  unfold call_throwing
  rw [h]

theorem run_call_throwing_some {e : Event} {throws : Trace → Option Thrown} {tr : Trace}
    {t : Thrown} (h : throws tr = some t) :
    call_throwing e throws tr = ([e], Except.error (Outcome.threw t)) := by
  unfold call_throwing
  rw [h]

theorem run_report (W : World) (m : Message) (tr : Trace) :
    report W m tr = (if W.has_cb = true then [Event.error m] else [], Except.ok ()) := by
  unfold report
  cases W.has_cb <;> simp

/-! ## Viewport already ordered -/

theorem prepare_task_ordered (scene_task : Nat) (surface : SurfaceResource)
    (renddesc : RendDesc) (hx : renddesc.tl.x ≤ renddesc.br.x)
    (hy : renddesc.tl.y ≤ renddesc.br.y) :
    prepare_task scene_task surface renddesc =
      { node := TaskNode.scene scene_task
        target_surface := surface
        target_rect := ⟨(0, 0), (surface.w, surface.h)⟩
        source_rect := ⟨renddesc.tl, renddesc.br⟩ } := by
  have hc : ¬ (renddesc.tl.x > renddesc.br.x ∨ renddesc.tl.y > renddesc.br.y) := by
    rintro (h | h)
    · exact absurd hx (not_le.mpr h)
    · exact absurd hy (not_le.mpr h)
  simp only [prepare_task, normalize, if_neg hc]

/-- Claim C6. For every viewport with p0.x <= p1.x and p0.y <= p1.y, when the
surface is created, the scene yields a task and the engine resolves,
`call_renderer` inserts no transformation node: the one task it submits to the
engine is the task the scene built, with the requested corners as source
rectangle, (0,0)..surface size as target rectangle and the given surface as
target; these are all the calls it makes. -/
theorem C6_ordered_viewport_passthrough (W : World) (renddesc : RendDesc) (tr : Trace)
    (scene_task : Nat)
    (hx : renddesc.tl.x ≤ renddesc.br.x) (hy : renddesc.tl.y ≤ renddesc.br.y)
    (hcreate : W.create_throws (tr ++ [Event.call_renderer renddesc]) = none)
    (htask : W.build_rendering_task
      (tr ++ [Event.call_renderer renddesc] ++ [Event.surface_create renddesc.w renddesc.h])
        = some scene_task)
    (hengine : W.get_renderer
      (tr ++ [Event.call_renderer renddesc] ++ [Event.surface_create renddesc.w renddesc.h]
        ++ [Event.build_rendering_task]) W.engine = true) :
    (call_renderer W renddesc tr).1 =
      [Event.call_renderer renddesc, Event.surface_create renddesc.w renddesc.h,
        Event.build_rendering_task, Event.get_renderer W.engine,
        Event.run
          { node := TaskNode.scene scene_task
            target_surface := ⟨renddesc.w, renddesc.h⟩
            target_rect := ⟨(0, 0), (renddesc.w, renddesc.h)⟩
            source_rect := ⟨renddesc.tl, renddesc.br⟩ }] := by
  unfold call_renderer
  rw [run_emit_bind, run_bind_ok (run_call_throwing_none hcreate), run_call_bind, htask]
  simp only [run_call_bind, hengine]
  rw [prepare_task_ordered scene_task _ renddesc hx hy]
  simp only [Bool.true_eq_false, if_false]
  rw [run_bind]
  unfold call_throwing
  split <;> rename_i h <;> split at h <;> simp_all


/-- Instance of C6: the first block of the example job, viewport (0,0)..(2,3). -/
theorem C6_ordered_viewport_passthrough_witness :
    (call_renderer example_world example_world.desc []).1 =
      [Event.call_renderer example_world.desc, Event.surface_create 2 3,
        Event.build_rendering_task, Event.get_renderer "software",
        Event.run
          { node := TaskNode.scene 0
            target_surface := ⟨2, 3⟩
            target_rect := ⟨(0, 0), (2, 3)⟩
            source_rect := ⟨⟨0, 0⟩, ⟨2, 3⟩⟩ }] :=
  C6_ordered_viewport_passthrough example_world example_world.desc [] 0
    (by decide) (by decide) rfl rfl rfl

/-- The example job, 2 x 3 pixels with a budget of 4, is rendered on the split
path. -/
theorem split_decision_example :
    is_rendering_split 4 2 3 = true ∧ frame_body example_world = split_frame example_world :=
  ⟨by decide,
    ((split_decision_in_range example_world (by decide) (by decide)).1 (by decide)).2.trans
      (if_pos (by decide))⟩

/-! ## Streaming a block -/

theorem copied_pixels_in_range {width : Int} (h0 : 0 ≤ width)
    (hfit : sizeof_Color * width ≤ 2147483647) : copied_pixels width = width.toNat := by
  unfold copied_pixels rowspan int_mul wrap_int
  unfold sizeof_Color at hfit ⊢
  omega

theorem scanline_data_get (W : World) (s : Surface) (y width : Int) (i : Nat)
    (hi : (i : Int) < width) :
    (W.alpha_mode = AlphaMode.FILL →
      (scanline_data W s y width)[i]? = some (W.blend (s.pixel y i) W.desc.bg_color)) ∧
    (W.alpha_mode = AlphaMode.EXTRACT →
      (scanline_data W s y width)[i]? =
        some ⟨(s.pixel y i).a, (s.pixel y i).a, (s.pixel y i).a, (s.pixel y i).a⟩) ∧
    (W.alpha_mode = AlphaMode.REDUCE →
      (scanline_data W s y width)[i]? =
        some ⟨(s.pixel y i).r, (s.pixel y i).g, (s.pixel y i).b, 1⟩) ∧
    (W.alpha_mode = AlphaMode.KEEP → sizeof_Color * width ≤ 2147483647 →
      (scanline_data W s y width)[i]? = some (s.pixel y i)) := by
  have h : i < width.toNat := by omega
  refine ⟨?_, ?_, ?_, ?_⟩
  · intro hm
    unfold scanline_data
    rw [hm]
    simp only
    rw [List.getElem?_map, List.getElem?_range h]
    rfl
  · intro hm
    unfold scanline_data
    rw [hm]
    simp only
    rw [List.getElem?_map, List.getElem?_range h]
    rfl
  · intro hm
    unfold scanline_data
    rw [hm]
    simp only
    rw [List.getElem?_map, List.getElem?_range h]
    rfl
  · intro hm hfit
    unfold scanline_data
    rw [hm]
    simp only
    rw [copied_pixels_in_range (by omega) hfit, List.getElem?_map, List.getElem?_range h]
    rfl

theorem scanline_loop_ok (W : World) (s : Surface) (width height yOffset : Int)
    (hstart : ∀ tr row, W.start_scanline tr row = true)
    (hend : ∀ tr, W.end_scanline tr = true) (hmax : height ≤ 2147483647) :
    ∀ (n y : Nat) (tr : Trace), height ≤ (y : Int) + n →
      scanline_loop W s width height yOffset n y tr =
        ((List.range' y (height.toNat - y)).flatMap (row_calls W s width yOffset),
          Except.ok true) := by
  intro n
  induction n with
  | zero =>
    intro y tr hy
    have h1 : ¬ ((y : Int) < height) := by omega
    have h2 : height.toNat - y = 0 := by omega
    simp [scanline_loop, h1, h2]
  | succ n ih =>
    intro y tr hy
    by_cases h1 : (y : Int) < height
    · have hadd : int_add (y : Int) 1 = ((y + 1 : Nat) : Int) := by
        unfold int_add
        rw [wrap_int_eq (by omega) (by omega)]
        push_cast
        rfl
      have h2 : height.toNat - y = (height.toNat - (y + 1)) + 1 := by omega
      rw [scanline_loop, if_pos h1]
      simp only [run_call_bind, hstart, hend, Bool.true_eq_false, if_false, run_emit_bind, hadd]
      rw [ih (y + 1) _ (by push_cast; omega), h2, List.range'_succ]
      simp [row_calls]
    · have h2 : height.toNat - y = 0 := by omega
      rw [scanline_loop, if_neg h1]
      simp [h2]

theorem process_block_alpha_ok (W : World) (s : Surface) (width height yOffset : Int)
    (hstart : ∀ tr row, W.start_scanline tr row = true)
    (hend : ∀ tr, W.end_scanline tr = true) (hmax : height ≤ 2147483647) (tr : Trace) :
    process_block_alpha W s width height yOffset tr =
      ((List.range height.toNat).flatMap (row_calls W s width yOffset), Except.ok true) := by
  unfold process_block_alpha
  have h := scanline_loop_ok W s width height yOffset hstart hend hmax height.toNat 0 tr
    (by push_cast; omega)
  rw [List.range_eq_range']
  simpa using h


/-- When `start_scanline` and `end_scanline` always succeed,
`process_block_alpha` returns true, the calls it makes are, for each row y of
[0, height) in ascending order, `start_scanline(y + yOffset)`, the writes into
the buffer of that row and `end_scanline`, and the pixel written at column i of
the buffer of row y + yOffset is: for EXTRACT (a, a, a, a) with a the alpha of
source pixel (y, i); for REDUCE the source pixel with R, G, B unchanged and
alpha 1; for KEEP the source pixel, provided the byte count
`sizeof(Color) * width` of the row fits in an `int`. -/
theorem alpha_modes_in_range (W : World) (s : Surface) (width height yOffset : Int)
    (tr : Trace)
    (hstart : ∀ tr row, W.start_scanline tr row = true)
    (hend : ∀ tr, W.end_scanline tr = true)
    (hint : is_int height) (_hw : width ≤ s.w) (_hh : height ≤ s.h) :
    process_block_alpha W s width height yOffset tr =
      ((List.range height.toNat).flatMap (fun (y : Nat) =>
          [Event.start_scanline (int_add y yOffset),
           Event.write_scanline (int_add y yOffset) (scanline_data W s y width),
           Event.end_scanline]),
        Except.ok true) ∧
    ∀ (y i : Nat), (y : Int) < height → (i : Int) < width →
      (W.alpha_mode = AlphaMode.EXTRACT →
        (scanline_data W s y width)[i]? =
          some ⟨(s.pixel y i).a, (s.pixel y i).a, (s.pixel y i).a, (s.pixel y i).a⟩) ∧
      (W.alpha_mode = AlphaMode.REDUCE →
        (scanline_data W s y width)[i]? =
          some ⟨(s.pixel y i).r, (s.pixel y i).g, (s.pixel y i).b, 1⟩) ∧
      (W.alpha_mode = AlphaMode.KEEP → sizeof_Color * width ≤ 2147483647 →
        (scanline_data W s y width)[i]? = some (s.pixel y i)) := by
  refine ⟨process_block_alpha_ok W s width height yOffset hstart hend hint.2 tr, ?_⟩
  intro y i _ hi
  exact (scanline_data_get W s y width i hi).2

/-- A block of 2 x 3 pixels streamed at offset 10 in the example job (alpha
mode KEEP); the pixel of row 1, column 1 is written as it is. -/
theorem alpha_modes_example :
    (process_block_alpha example_world ⟨2, 3, fun y i => ⟨y, i, 0, 1 / 2⟩⟩ 2 3 10 []).2
      = Except.ok true ∧
    (scanline_data example_world ⟨2, 3, fun y i => ⟨y, i, 0, 1 / 2⟩⟩ 1 2)[1]?
      = some ⟨1, 1, 0, 1 / 2⟩ := by
  have h := alpha_modes_in_range example_world ⟨2, 3, fun y i => ⟨y, i, 0, 1 / 2⟩⟩ 2 3 10 []
    (fun _ _ => rfl) (fun _ => rfl) (by decide) (by decide) (by decide)
  exact ⟨by rw [h.1], (h.2 1 1 (by decide) (by decide)).2.2 rfl (by decide)⟩

/-- Claim C3, the failing input: alpha mode `KEEP`, a surface of 268435457 x 1
pixels, `process_block_alpha(surface, 268435457, 1, 0, cb)` with a sink that
always succeeds. The byte count `sizeof(Color) * width` = 4294967312 is kept in
the `int rowspan` as 16, so the `memcpy` copies one pixel: the function returns
true, but only column 0 of the scanline buffer is written and column 1 (like
every later column) is not. In mode `REDUCE` the loop of the same `switch`
writes column 1 for the same width. -/
theorem C3_failing_input :
    example_world.alpha_mode = AlphaMode.KEEP ∧
    (268435457 : Int) ≤ wide_surface.w ∧ (1 : Int) ≤ wide_surface.h ∧
    rowspan 268435457 = 16 ∧
    process_block_alpha example_world wide_surface 268435457 1 0 [] =
      ([Event.start_scanline 0, Event.write_scanline 0 [wide_surface.pixel 0 0],
        Event.end_scanline], Except.ok true) ∧
    (scanline_data example_world wide_surface 0 268435457)[1]? = none ∧
    (scanline_data reduce_world wide_surface 0 268435457)[1]? =
      some ⟨(wide_surface.pixel 0 1).r, (wide_surface.pixel 0 1).g,
        (wide_surface.pixel 0 1).b, 1⟩ :=
  ⟨rfl, by decide, by decide, by decide, rfl, rfl,
    (scanline_data_get reduce_world wide_surface 0 268435457 1 (by decide)).2.2.1 rfl⟩

/-! ## A frame on the split path -/

theorem call_renderer_ok (W : World) (rd : RendDesc) (tr : Trace)
    (hcreate : ∀ tr, W.create_throws tr = none)
    (hrun : ∀ tr t, W.run_throws tr t = none)
    (hengine : ∀ tr, W.get_renderer tr W.engine = true) :
    ∃ evs, call_renderer W rd tr = (evs, Except.ok (true, ⟨rd.w, rd.h⟩)) ∧
      evs.filter is_render_or_sink_call = [Event.call_renderer rd] := by
  unfold call_renderer
  rw [run_emit_bind, run_bind_ok (run_call_throwing_none (hcreate _)), run_call_bind]
  cases W.build_rendering_task (tr ++ [Event.call_renderer rd] ++
      [Event.surface_create rd.w rd.h]) with
  | none =>
    refine ⟨_, rfl, ?_⟩
    simp [is_render_or_sink_call, is_sink_call]
  | some scene_task =>
    simp only [run_call_bind, hengine, Bool.true_eq_false, if_false]
    rw [run_bind_ok (run_call_throwing_none (hrun _ _))]
    refine ⟨_, rfl, ?_⟩
    simp [is_render_or_sink_call, is_sink_call]

theorem filter_row_calls (W : World) (s : Surface) (width yOffset : Int) (l : List Nat) :
    (l.flatMap (row_calls W s width yOffset)).filter is_render_or_sink_call =
      l.flatMap (fun (y : Nat) =>
        [Event.start_scanline (int_add y yOffset), Event.end_scanline]) := by
  induction l with
  | nil => rfl
  | cons y ys ih =>
    rw [List.flatMap_cons, List.filter_append, ih, List.flatMap_cons]
    simp [row_calls, is_render_or_sink_call, is_sink_call]

theorem stream_block_ok (W : World) (surface : SurfaceResource) (blockrd : RendDesc)
    (y_offset : Int) (tr : Trace)
    (hlock : ∀ tr, W.lock_read tr = true)
    (hstart : ∀ tr row, W.start_scanline tr row = true)
    (hend : ∀ tr, W.end_scanline tr = true) (hmax : blockrd.h ≤ 2147483647) :
    ∃ evs, stream_block W surface blockrd y_offset tr = (evs, Except.ok ()) ∧
      evs.filter is_render_or_sink_call =
        (List.range blockrd.h.toNat).flatMap (fun (y : Nat) =>
          [Event.start_scanline (int_add y y_offset), Event.end_scanline]) := by
  unfold stream_block
  simp only [run_call_bind, hlock, Bool.true_eq_false, if_false, run_ask_bind]
  rw [run_bind_ok (process_block_alpha_ok W _ _ blockrd.h y_offset hstart hend hmax _)]
  simp only [Bool.true_eq_false, if_false, run_pure, List.append_nil]
  refine ⟨_, rfl, ?_⟩
  rw [List.filter_cons]
  simp only [is_render_or_sink_call, is_sink_call, Bool.false_eq_true, if_false]
  exact filter_row_calls W _ _ y_offset _

theorem split_loop_ok (W : World) (rh rws lrh : Int)
    (hcreate : ∀ tr, W.create_throws tr = none)
    (hrun : ∀ tr t, W.run_throws tr t = none)
    (hengine : ∀ tr, W.get_renderer tr W.engine = true)
    (hlock : ∀ tr, W.lock_read tr = true)
    (hstart : ∀ tr row, W.start_scanline tr row = true)
    (hend : ∀ tr, W.end_scanline tr = true)
    (hrh : rh ≤ 2147483647) (hlrh : lrh ≤ 2147483647) (hrws : rws ≤ 2147483647) :
    ∀ (n : Nat) (i : Int) (tr : Trace), 0 ≤ i → rws ≤ i + n →
      ∃ evs, split_loop W rh rws lrh n i tr = (evs, Except.ok ()) ∧
        evs.filter is_render_or_sink_call =
          (block_loop rh rws lrh n i).flatMap (block_calls W) := by
  intro n
  induction n with
  | zero =>
    intro i tr _ hi
    have h1 : ¬ i < rws := by omega
    refine ⟨[], ?_, ?_⟩
    · simp [split_loop, h1]
    · simp [block_loop]
  | succ n ih =>
    intro i tr hi0 hi
    by_cases h1 : i < rws
    · rw [split_loop, block_loop, if_pos h1, if_pos h1, run_emit_bind]
      cases hb : block_at rh rws lrh i with
      | none =>
        refine ⟨_, rfl, ?_⟩
        simp [is_render_or_sink_call, is_sink_call]
      | some b =>
        have hbh : b.height ≤ 2147483647 := by
          unfold block_at at hb
          by_cases c1 : i = int_sub rws 1
          · rw [if_pos c1] at hb
            by_cases c2 : lrh = 0
            · rw [if_pos c2] at hb; cases hb
            · rw [if_neg c2] at hb; cases hb; exact hlrh
          · rw [if_neg c1] at hb; cases hb; exact hrh
        have hadd : int_add i 1 = i + 1 := by
          unfold int_add
          exact wrap_int_eq (by omega) (by omega)
        obtain ⟨e1, hc, hf1⟩ := call_renderer_ok W
          (W.desc.set_subwindow 0 b.y_offset W.desc.w b.height) (tr ++ [Event.surface_reset])
          hcreate hrun hengine
        obtain ⟨e2, hs, hf2⟩ := stream_block_ok W
          ⟨(W.desc.set_subwindow 0 b.y_offset W.desc.w b.height).w,
            (W.desc.set_subwindow 0 b.y_offset W.desc.w b.height).h⟩
          (W.desc.set_subwindow 0 b.y_offset W.desc.w b.height) b.y_offset
          (tr ++ [Event.surface_reset] ++ e1) hlock hstart hend hbh
        obtain ⟨e3, hl, hf3⟩ := ih (i + 1) (tr ++ [Event.surface_reset] ++ e1 ++ e2)
          (by omega) (by push_cast at hi; omega)
        simp only [hadd]
        rw [run_bind_ok hc]
        simp only [Bool.true_eq_false, if_false]
        rw [run_bind_ok hs, hl]
        refine ⟨_, rfl, ?_⟩
        rw [List.filter_cons, List.filter_append, List.filter_append, hf1, hf2, hf3,
          List.flatMap_cons]
        simp [is_render_or_sink_call, is_sink_call, block_calls, RendDesc.set_subwindow]
    · refine ⟨[], ?_, ?_⟩
      · rw [split_loop, if_neg h1]; rfl
      · rw [block_loop, if_neg h1]; rfl


theorem split_frame_ok (W : World) (tr : Trace)
    (hframe : ∀ tr, W.start_frame tr = true)
    (hcreate : ∀ tr, W.create_throws tr = none)
    (hrun : ∀ tr t, W.run_throws tr t = none)
    (hengine : ∀ tr, W.get_renderer tr W.engine = true)
    (hlock : ∀ tr, W.lock_read tr = true)
    (hstart : ∀ tr row, W.start_scanline tr row = true)
    (hend : ∀ tr, W.end_scanline tr = true) :
    ∃ evs, split_frame W tr = (evs, Except.ok ()) ∧
      evs.filter is_render_or_sink_call =
        Event.start_frame ::
          (rendered_blocks W.pixel_rendering_limit W.desc.w W.desc.h).flatMap (block_calls W)
          ++ [Event.end_frame] := by
  have hrws : rows W.pixel_rendering_limit W.desc.w W.desc.h ≤ 2147483647 :=
    (is_int_wrap_int _).2
  have hlrh : lastrowheight W.pixel_rendering_limit W.desc.w W.desc.h ≤ 2147483647 :=
    (is_int_wrap_int _).2
  obtain ⟨e1, hl, hf⟩ := split_loop_ok W (rowheight W.pixel_rendering_limit W.desc.w)
    (rows W.pixel_rendering_limit W.desc.w W.desc.h)
    (lastrowheight W.pixel_rendering_limit W.desc.w W.desc.h)
    hcreate hrun hengine hlock hstart hend (rowheight_le _ _) hlrh hrws
    (rows W.pixel_rendering_limit W.desc.w W.desc.h).toNat 0
    (tr ++ [Event.info (int_sub (rows W.pixel_rendering_limit W.desc.w W.desc.h) 1)
      (rowheight W.pixel_rendering_limit W.desc.w)
      (lastrowheight W.pixel_rendering_limit W.desc.w W.desc.h)] ++ [Event.start_frame])
    (le_refl 0) (by omega)
  unfold split_frame
  simp only [run_emit_bind, run_call_bind, hframe, Bool.true_eq_false, if_false]
  rw [run_bind_ok hl]
  simp only [run_emit_bind, run_emit]
  refine ⟨_, rfl, ?_⟩
  rw [List.filter_cons, List.filter_cons, List.filter_append, hf]
  simp [is_render_or_sink_call, is_sink_call, rendered_blocks]

theorem tiles_le {s e : Int} {bs : List Block} (h : tiles s bs e) : s ≤ e := by
  induction bs generalizing s with
  | nil => simp only [tiles] at h; omega
  | cons c cs ih =>
    simp only [tiles] at h
    have := ih h.2.2
    omega

theorem tiles_mem_bounds {s e : Int} {bs : List Block} (h : tiles s bs e) :
    ∀ b ∈ bs, s ≤ b.y_offset ∧ b.y_offset + b.height ≤ e := by
  induction bs generalizing s with
  | nil => intro b hb; cases hb
  | cons c cs ih =>
    simp only [tiles] at h
    intro b hb
    rcases List.mem_cons.mp hb with rfl | hb
    · have := tiles_le h.2.2
      omega
    · have := ih h.2.2 b hb
      omega

theorem tiles_pairwise {s e : Int} {bs : List Block} (h : tiles s bs e) :
    List.Pairwise (fun a b : Block => a.y_offset < b.y_offset) bs := by
  induction bs generalizing s with
  | nil => exact List.Pairwise.nil
  | cons c cs ih =>
    simp only [tiles] at h
    refine List.Pairwise.cons ?_ (ih h.2.2)
    intro b hb
    have := (tiles_mem_bounds h.2.2 b hb).1
    omega

theorem int_add_row {y : Nat} {off height e : Int} (hy : y < height.toNat) (h0 : 0 ≤ off)
    (he : off + height ≤ e) (hmax : e ≤ 2147483647) : int_add (y : Int) off = off + y := by
  unfold int_add
  rw [wrap_int_eq (by omega) (by omega)]
  omega

theorem tiles_flatMap_rows (g : Int → List Event) :
    ∀ (bs : List Block) (s e : Int), tiles s bs e → 0 ≤ s → e ≤ 2147483647 →
      bs.flatMap (fun b =>
          (List.range b.height.toNat).flatMap (fun (y : Nat) => g (int_add y b.y_offset)))
        = (List.range' s.toNat (e - s).toNat).flatMap (fun (y : Nat) => g y) := by
  intro bs
  induction bs with
  | nil =>
    intro s e h _ _
    simp only [tiles] at h
    subst h
    simp
  | cons b bs ih =>
    intro s e h hs he
    simp only [tiles] at h
    obtain ⟨hb, hpos, hrest⟩ := h
    have hle := tiles_le hrest
    have hlen : (e - s).toNat = (e - (s + b.height)).toNat + b.height.toNat := by omega
    have hst : (s + b.height).toNat = s.toNat + 1 * b.height.toNat := by omega
    rw [List.flatMap_cons, ih (s + b.height) e hrest (by omega) he, hlen,
      ← List.range'_append s.toNat b.height.toNat _ 1, List.flatMap_append, hst]
    congr 1
    rw [List.range'_eq_map_range, List.flatMap_map]
    apply List.flatMap_congr
    intro y hy
    have hy2 : y < b.height.toNat := List.mem_range.mp hy
    rw [hb, int_add_row hy2 hs hle he]
    congr 1
    push_cast
    omega

theorem block_calls_plain (W : World) {s e : Int} {bs : List Block} (h : tiles s bs e)
    (hs : 0 ≤ s) (he : e ≤ 2147483647) :
    bs.flatMap (block_calls W) =
      bs.flatMap (fun b =>
        Event.call_renderer (W.desc.set_subwindow 0 b.y_offset W.desc.w b.height) ::
          (List.range b.height.toNat).flatMap (fun (y : Nat) =>
            [Event.start_scanline (b.y_offset + y), Event.end_scanline])) := by
  apply List.flatMap_congr
  intro b hb
  obtain ⟨h1, h2⟩ := tiles_mem_bounds h b hb
  unfold block_calls
  congr 1
  apply List.flatMap_congr
  intro y hy
  have hy2 : y < b.height.toNat := List.mem_range.mp hy
  rw [int_add_row hy2 (by omega) h2 he]

theorem filter_sink_block_calls (W : World) (bs : List Block) :
    (bs.flatMap (block_calls W)).filter is_sink_call =
      bs.flatMap (fun b =>
        (List.range b.height.toNat).flatMap (fun (y : Nat) =>
          [Event.start_scanline (int_add y b.y_offset), Event.end_scanline])) := by
  induction bs with
  | nil => rfl
  | cons b bs ih =>
    rw [List.flatMap_cons, List.filter_append, ih, List.flatMap_cons]
    congr 1
    unfold block_calls
    rw [List.filter_cons]
    simp only [is_sink_call, Bool.false_eq_true, if_false]
    generalize List.range b.height.toNat = l
    induction l with
    | nil => rfl
    | cons y ys ih2 =>
      rw [List.flatMap_cons, List.filter_append, ih2]
      simp [is_sink_call]

theorem filter_sink_of_render_or_sink (l : List Event) :
    l.filter is_sink_call = (l.filter is_render_or_sink_call).filter is_sink_call := by
  rw [List.filter_filter]
  congr 1
  funext e
  cases e <;> simp [is_sink_call, is_render_or_sink_call]


/-- For every frame rendered on the split path for which
`1 + height / rowheight` fits in an `int`, if `start_frame`, every
`call_renderer` call, every surface read-lock, every `start_scanline` and every
`end_scanline` succeed, the frame is completed and the sink sees exactly one
`start_frame`, then `start_scanline` with the rows 0, 1, ..., height-1 in
ascending order, each once and each followed by its `end_scanline`, then
exactly one `end_frame`; the blocks are rendered in order of strictly ascending
y_offset, each one by a `call_renderer` call made before its own rows are
streamed. -/
theorem split_frame_order_in_range (W : World) (tr : Trace)
    (_hw : 0 < W.desc.w) (hh : 0 < W.desc.h) (hmax : W.desc.h ≤ 2147483647)
    (hfit : W.desc.h / rowheight W.pixel_rendering_limit W.desc.w < 2147483647)
    (hsplit : is_rendering_split W.pixel_rendering_limit W.desc.w W.desc.h = true)
    (hframe : ∀ tr, W.start_frame tr = true)
    (hcreate : ∀ tr, W.create_throws tr = none)
    (hrun : ∀ tr t, W.run_throws tr t = none)
    (hengine : ∀ tr, W.get_renderer tr W.engine = true)
    (hlock : ∀ tr, W.lock_read tr = true)
    (hstart : ∀ tr row, W.start_scanline tr row = true)
    (hend : ∀ tr, W.end_scanline tr = true) :
    ∃ evs, frame_body W tr = (evs, Except.ok ()) ∧
      evs.filter is_sink_call =
        Event.start_frame ::
          (List.range W.desc.h.toNat).flatMap
            (fun (y : Nat) => [Event.start_scanline y, Event.end_scanline])
          ++ [Event.end_frame] ∧
      evs.filter is_render_or_sink_call =
        Event.start_frame ::
          (rendered_blocks W.pixel_rendering_limit W.desc.w W.desc.h).flatMap (fun b =>
            Event.call_renderer (W.desc.set_subwindow 0 b.y_offset W.desc.w b.height) ::
              (List.range b.height.toNat).flatMap (fun (y : Nat) =>
                [Event.start_scanline (b.y_offset + y), Event.end_scanline]))
          ++ [Event.end_frame] ∧
      List.Pairwise (fun a b : Block => a.y_offset < b.y_offset)
        (rendered_blocks W.pixel_rendering_limit W.desc.w W.desc.h) := by
  have ht := rendered_blocks_tiles W.pixel_rendering_limit W.desc.w W.desc.h hh hmax hfit
  obtain ⟨evs, hrun2, hf⟩ := split_frame_ok W tr hframe hcreate hrun hengine hlock hstart hend
  refine ⟨evs, ?_, ?_, ?_, tiles_pairwise ht⟩
  · unfold frame_body
    rw [if_pos hsplit]
    exact hrun2
  · rw [filter_sink_of_render_or_sink, hf, List.cons_append, List.filter_cons,
      List.filter_append, filter_sink_block_calls,
      tiles_flatMap_rows (fun r => [Event.start_scanline r, Event.end_scanline]) _ 0 _ ht
        (le_refl 0) hmax]
    simp [is_sink_call, List.range_eq_range']
  · rw [hf, block_calls_plain W ht (le_refl 0) hmax]

/-- A frame of the example job, 2 x 3 pixels with a budget of 4 pixels, is
rendered as a block of 2 rows and a block of 1 row, and the sink sees the rows
0, 1, 2 in order. -/
theorem split_frame_order_example :
    rendered_blocks 4 2 3 = [⟨0, 2⟩, ⟨2, 1⟩] ∧
    ∃ evs, frame_body example_world [] = (evs, Except.ok ()) ∧
      evs.filter is_sink_call =
        [Event.start_frame, Event.start_scanline 0, Event.end_scanline,
          Event.start_scanline 1, Event.end_scanline, Event.start_scanline 2,
          Event.end_scanline, Event.end_frame] := by
  refine ⟨by decide, ?_⟩
  obtain ⟨evs, h1, h2, _⟩ := split_frame_order_in_range example_world [] (by decide)
    (by decide) (by decide) (by decide) (by decide) (fun _ => rfl) (fun _ => rfl)
    (fun _ _ => rfl) (fun _ => rfl) (fun _ => rfl) (fun _ _ => rfl) (fun _ => rfl)
  exact ⟨evs, h1, h2⟩

/-- Claim C4, the failing input: a split frame of width 1 and height 2^31 - 1
with a budget of 1 pixel, in which `start_frame`, every `call_renderer` call,
every read-lock, every `start_scanline` and every `end_scanline` succeed. The
code logs 2147483647 blocks (`rows - 1`), but `rows` is -2^31 and the block
loop makes no iteration: the frame is completed with `start_frame` and
`end_frame` as the only calls to the sink, and row 0 is never passed to
`start_scanline`. -/
theorem C4_failing_input :
    0 < tall_world.desc.w ∧ 0 < tall_world.desc.h ∧
    is_rendering_split tall_world.pixel_rendering_limit tall_world.desc.w
      tall_world.desc.h = true ∧
    frame_body tall_world [] =
      ([Event.info 2147483647 1 0, Event.start_frame, Event.surface_reset, Event.end_frame],
        Except.ok ()) ∧
    (frame_body tall_world []).1.filter is_sink_call = [Event.start_frame, Event.end_frame] ∧
    Event.start_scanline 0 ∉ (frame_body tall_world []).1 :=
  ⟨by decide, by decide, by decide, rfl, by decide, by decide⟩

/-! ## Calls that fail: general lemmas -/

theorem clean_append {bad : Trace → Event → Bool} :
    ∀ (e1 : List Event) (tr : Trace) (e2 : List Event),
      Clean bad tr e1 → Clean bad (tr ++ e1) e2 → Clean bad tr (e1 ++ e2) := by
  intro e1
  induction e1 with
  | nil => intro tr e2 _ h; simpa using h
  | cons x xs ih =>
    intro tr e2 h1 h2
    simp only [Clean] at h1
    simp only [List.cons_append, Clean]
    refine ⟨h1.1, ih _ _ h1.2 ?_⟩
    simpa using h2

theorem clean_of_forall {bad : Trace → Event → Bool} :
    ∀ (evs : List Event) (tr : Trace), (∀ e ∈ evs, ∀ t, bad t e = false) →
      Clean bad tr evs := by
  intro evs
  induction evs with
  | nil => intro tr _; trivial
  | cons x xs ih =>
    intro tr h
    simp only [Clean]
    exact ⟨h x (List.mem_cons_self x xs) tr,
      ih _ (fun e he => h e (List.mem_cons_of_mem x he))⟩

theorem clean_split {bad : Trace → Event → Bool} :
    ∀ (a : List Event) (tr : Trace) (e : Event) (b : List Event),
      Clean bad tr (a ++ e :: b) → bad (tr ++ a) e = false := by
  intro a
  induction a with
  | nil => intro tr e b h; simp only [List.nil_append, Clean] at h; simpa using h.1
  | cons x xs ih =>
    intro tr e b h
    simp only [List.cons_append, Clean] at h
    have := ih _ e b h.2
    simpa using this

theorem broken_append_left {bad : Trace → Event → Bool} {T : List Event → Prop} :
    ∀ (e1 : List Event) (tr : Trace) (e2 : List Event),
      Clean bad tr e1 → Broken bad T (tr ++ e1) e2 → Broken bad T tr (e1 ++ e2) := by
  intro e1
  induction e1 with
  | nil => intro tr e2 _ h; simpa using h
  | cons x xs ih =>
    intro tr e2 h1 h2
    simp only [Clean] at h1
    simp only [List.cons_append, Broken]
    refine Or.inr ⟨h1.1, ih _ _ h1.2 ?_⟩
    simpa using h2

theorem broken_append_right {bad : Trace → Event → Bool} {T : List Event → Prop}
    (e2 : List Event) (hT : ∀ b, T b → T (b ++ e2)) :
    ∀ (e1 : List Event) (tr : Trace), Broken bad T tr e1 → Broken bad T tr (e1 ++ e2) := by
  intro e1
  induction e1 with
  | nil => intro tr h; simp only [Broken] at h
  | cons x xs ih =>
    intro tr h
    simp only [Broken] at h
    simp only [List.cons_append, Broken]
    rcases h with h | h
    · exact Or.inl ⟨h.1, hT _ h.2⟩
    · exact Or.inr ⟨h.1, ih _ h.2⟩

theorem broken_mono {bad : Trace → Event → Bool} {T T2 : List Event → Prop}
    (hT : ∀ b, T b → T2 b) :
    ∀ (evs : List Event) (tr : Trace), Broken bad T tr evs → Broken bad T2 tr evs := by
  intro evs
  induction evs with
  | nil => intro tr h; simp only [Broken] at h
  | cons x xs ih =>
    intro tr h
    simp only [Broken] at h ⊢
    rcases h with h | h
    · exact Or.inl ⟨h.1, hT _ h.2⟩
    · exact Or.inr ⟨h.1, ih _ h.2⟩

theorem broken_split {bad : Trace → Event → Bool} {T : List Event → Prop}
    (hT : ∀ tr b, T b → Clean bad tr b) :
    ∀ (a : List Event) (tr : Trace) (e : Event) (b : List Event),
      Broken bad T tr (a ++ e :: b) → bad (tr ++ a) e = true → Clean bad tr a ∧ T b := by
  intro a
  induction a with
  | nil =>
    intro tr e b h hb
    simp only [List.nil_append, Broken] at h
    simp only [List.append_nil] at hb
    rcases h with h | h
    · exact ⟨trivial, h.2⟩
    · rw [h.1] at hb; cases hb
  | cons x xs ih =>
    intro tr e b h hb
    simp only [List.cons_append, Broken] at h
    have hb2 : bad (tr ++ [x] ++ xs) e = true := by simpa using hb
    rcases h with h | h
    · have := clean_split xs (tr ++ [x]) e b (hT _ _ h.2)
      rw [this] at hb2
      cases hb2
    · have := ih (tr ++ [x]) e b h.2 hb2
      exact ⟨⟨h.1, this.1⟩, this.2⟩

theorem clean_not_broken {bad : Trace → Event → Bool} :
    ∀ (a : List Event) (tr : Trace) (e : Event) (b : List Event),
      Clean bad tr (a ++ e :: b) → bad (tr ++ a) e = true → False := by
  intro a tr e b h hb
  rw [clean_split a tr e b h] at hb
  cases hb


/-! ## What the pieces of a frame call -/

theorem emits_bind {P : Event → Bool} {α β : Type} {m : Run α} {f : α → Run β}
    (hm : Emits P m) (hf : ∀ a, Emits P (f a)) : Emits P (m >>= f) := by
  intro tr e he
  rw [run_bind] at he
  cases h : (m tr).2 with
  | error o =>
    rw [h] at he
    exact hm tr e he
  | ok a =>
    rw [h] at he
    rcases List.mem_append.mp he with h1 | h1
    · exact hm tr e h1
    · exact hf a _ e h1

theorem emits_pure {P : Event → Bool} {α : Type} (a : α) : Emits P (pure a : Run α) := by
  intro tr e he
  cases he

theorem emits_leave {P : Event → Bool} {α : Type} (o : Outcome) :
    Emits P (leave o : Run α) := by
  intro tr e he
  cases he

theorem emits_emit {P : Event → Bool} {e : Event} (h : P e = true) : Emits P (emit e) := by
  intro tr x hx
  rw [run_emit] at hx
  rw [List.mem_singleton.mp hx]
  exact h

theorem emits_call {P : Event → Bool} {α : Type} {e : Event} (a : Trace → α)
    (h : P e = true) : Emits P (call e a) := by
  intro tr x hx
  rw [run_call] at hx
  rw [List.mem_singleton.mp hx]
  exact h

theorem emits_call_throwing {P : Event → Bool} {e : Event} (t : Trace → Option Thrown)
    (h : P e = true) : Emits P (call_throwing e t) := by
  intro tr x hx
  unfold call_throwing at hx
  cases ht : t tr with
  | none => rw [ht] at hx; rw [List.mem_singleton.mp hx]; exact h
  | some v => rw [ht] at hx; rw [List.mem_singleton.mp hx]; exact h

theorem run_report_bind {β : Type} (W : World) (m : Message) (f : Unit → Run β) (tr : Trace) :
    (report W m >>= f) tr =
      ((if W.has_cb = true then [Event.error m] else []) ++
          (f () (tr ++ (if W.has_cb = true then [Event.error m] else []))).1,
        (f () (tr ++ (if W.has_cb = true then [Event.error m] else []))).2) :=
  run_bind_ok (run_report W m tr)

theorem catch_clauses_trace (W : World) (tr : Trace) (r : Except Outcome Unit) :
    ∃ extra, (catch_clauses W tr r).1 = tr ++ extra ∧ ∀ e ∈ extra, ∃ m, e = Event.error m := by
  have hrep : ∀ m t e, e ∈ (report W m t).1 → ∃ m2, e = Event.error m2 := by
    intro m t e he
    rw [run_report] at he
    split at he
    · exact ⟨m, List.mem_singleton.mp he⟩
    · cases he
  cases r with
  | ok u => exact ⟨[], by simp [catch_clauses], fun e he => by cases he⟩
  | error o =>
    cases o with
    | returned b => exact ⟨[], by simp [catch_clauses], fun e he => by cases he⟩
    | out_of_fuel => exact ⟨[], by simp [catch_clauses], fun e he => by cases he⟩
    | threw t =>
      cases t with
      | string s => exact ⟨_, rfl, hrep _ _⟩
      | bad_alloc => exact ⟨_, rfl, hrep _ _⟩
      | unknown tag => exact ⟨_, rfl, hrep _ _⟩

theorem clean_errors (bad : Trace → Event → Bool)
    (hbad : ∀ t m, bad t (Event.error m) = false) (tr : Trace) (extra : List Event)
    (h : ∀ e ∈ extra, ∃ m, e = Event.error m) : Clean bad tr extra := by
  apply clean_of_forall
  intro e he t
  obtain ⟨m, rfl⟩ := h e he
  exact hbad t m

theorem frames_done_loop (W : World) {k : Nat} {tr0 : Trace} (h : FramesDone W k tr0) :
    ∀ (fuel : Nat),
      ([Event.init] ++ (frame_loop W (fuel + k) [Event.init]).1,
          (frame_loop W (fuel + k) [Event.init]).2) =
        (tr0 ++ (frame_loop W fuel tr0).1, (frame_loop W fuel tr0).2) := by
  induction h with
  | start => intro fuel; rfl
  | @frame j tr evs frames hk hit hf _ ih =>
    intro fuel
    have h1 := ih (fuel + 1)
    rw [show fuel + 1 + j = fuel + (j + 1) by omega] at h1
    rw [h1]
    conv_lhs => rw [frame_loop, run_bind_ok hit, if_pos hf]
    simp only [List.append_assoc]

/-- With enough fuel the cancelled run is produced: after `k` complete frames,
if the callback is present and answers false at the next check, `render`
returns false with that check as its last call. -/
theorem render_cancel_at_frame (W : World) {k : Nat} {tr0 : Trace} (h : FramesDone W k tr0)
    (hinit : W.init [] = true) (hcb : W.has_cb = true)
    (hcancel : W.amount_complete (tr0 ++ [Event.next_frame])
      (int_sub (total_frames W.desc) (W.next_frame tr0).2) (total_frames W.desc) = false)
    (fuel : Nat) :
    render W (fuel + 1 + k) =
      (tr0 ++ [Event.next_frame,
        Event.amount_complete (int_sub (total_frames W.desc) (W.next_frame tr0).2)
          (total_frames W.desc)],
        Outcome.returned false) := by
  have hit : frame_iteration W tr0 =
      ([Event.next_frame,
        Event.amount_complete (int_sub (total_frames W.desc) (W.next_frame tr0).2)
          (total_frames W.desc)],
        Except.error (Outcome.returned false)) := by
    unfold frame_iteration
    rw [run_call_bind]
    simp only [hcb, if_true, run_call_bind, hcancel, run_leave]
  have hloop : frame_loop W (fuel + 1) tr0 =
      ([Event.next_frame,
        Event.amount_complete (int_sub (total_frames W.desc) (W.next_frame tr0).2)
          (total_frames W.desc)],
        Except.error (Outcome.returned false)) := by
    rw [frame_loop, run_bind_error hit]
  have h1 := frames_done_loop W h (fuel + 1)
  rw [hloop] at h1
  unfold render
  rw [if_neg (by simp [hinit])]
  have ha := congrArg Prod.fst h1
  have hb := congrArg Prod.snd h1
  simp only at ha hb
  rw [ha, hb]
  rfl

theorem emits_mono {P Q : Event → Bool} {α : Type} {m : Run α} (h : Emits P m)
    (hPQ : ∀ e, P e = true → Q e = true) : Emits Q m :=
  fun tr e he => hPQ e (h tr e he)

theorem call_renderer_setup (W : World) (rd : RendDesc) :
    Emits is_setup_call (call_renderer W rd) := by
  unfold call_renderer
  refine emits_bind (emits_emit rfl) (fun _ => ?_)
  refine emits_bind (emits_call_throwing _ rfl) (fun _ => ?_)
  refine emits_bind (emits_call _ rfl) (fun task => ?_)
  cases task with
  | none => exact emits_pure _
  | some t =>
    refine emits_bind (emits_call _ rfl) (fun r => ?_)
    split
    · exact emits_leave _
    · exact emits_bind (emits_call_throwing _ rfl) (fun _ => emits_pure _)

theorem sync_scene_setup (W : World) (t : Time) : Emits is_setup_call (sync_scene W t) := by
  unfold sync_scene
  refine emits_bind ?_ (fun d => ?_)
  · split
    · exact emits_pure _
    · exact emits_call _ rfl
  · refine emits_bind ?_ (fun _ => emits_emit rfl)
    split
    · exact emits_bind (emits_emit rfl) (fun _ => emits_emit rfl)
    · exact emits_pure _

theorem halted_mono {α : Type} {F : α → Prop} (r : Except Outcome α) :
    r = Except.error (Outcome.returned false) → Halted F r := fun h => Or.inr h

theorem stops_of_clean {bad : Trace → Event → Bool} {T : List Event → Prop} {α : Type}
    {F : α → Prop} {m : Run α} (h : ∀ tr, Clean bad tr (m tr).1) : StopsAt bad T F m :=
  fun tr => Or.inl (h tr)

theorem stops_of_emits {bad : Trace → Event → Bool} {T : List Event → Prop} {α : Type}
    {F : α → Prop} {m : Run α} {P : Event → Bool} (h : Emits P m)
    (hP : ∀ e, P e = true → ∀ t, bad t e = false) : StopsAt bad T F m :=
  stops_of_clean (fun tr => clean_of_forall _ _ (fun e he => hP e (h tr e he)))

theorem stops_bind {bad : Trace → Event → Bool} {T : List Event → Prop} {E : Event → Bool}
    {α β : Type} {F : α → Prop} {G : β → Prop} {m : Run α} {f : α → Run β}
    (hT : ∀ b b2, T b → (∀ e ∈ b2, E e = true) → T (b ++ b2))
    (hm : StopsAt bad T F m)
    (hf : ∀ a, StopsAt bad T G (f a))
    (hfail : ∀ a, F a → ∀ tr, (∀ e ∈ (f a tr).1, E e = true) ∧ Halted G (f a tr).2) :
    StopsAt bad T G (m >>= f) := by
  intro tr
  cases hr : (m tr).2 with
  | error o =>
    rw [run_bind_error (Prod.ext rfl hr : m tr = ((m tr).1, Except.error o))]
    show Clean bad tr (m tr).1 ∨ (Broken bad T tr (m tr).1 ∧ Halted G (Except.error o))
    rcases hm tr with h | ⟨h1, h2⟩
    · exact Or.inl h
    · right
      refine ⟨h1, ?_⟩
      rw [hr] at h2
      rcases h2 with ⟨a, h3, _⟩ | h3
      · cases h3
      · cases h3
        exact Or.inr rfl
  | ok a =>
    rw [run_bind_ok (Prod.ext rfl hr : m tr = ((m tr).1, Except.ok a))]
    show Clean bad tr ((m tr).1 ++ (f a (tr ++ (m tr).1)).1) ∨
      (Broken bad T tr ((m tr).1 ++ (f a (tr ++ (m tr).1)).1) ∧
        Halted G (f a (tr ++ (m tr).1)).2)
    rcases hm tr with h | ⟨h1, h2⟩
    · rcases hf a (tr ++ (m tr).1) with h3 | ⟨h3, h4⟩
      · exact Or.inl (clean_append _ _ _ h h3)
      · exact Or.inr ⟨broken_append_left _ _ _ h h3, h4⟩
    · right
      rw [hr] at h2
      rcases h2 with ⟨a2, h3, h4⟩ | h3
      · cases h3
        obtain ⟨h5, h6⟩ := hfail a h4 (tr ++ (m tr).1)
        exact ⟨broken_append_right _ (fun b hb => hT b _ hb h5) _ _ h1, h6⟩
      · cases h3


theorem report_is_report (W : World) (m : Message) (tr : Trace) :
    ∀ e ∈ (report W m tr).1, is_report W e = true := by
  intro e he
  rw [run_report] at he
  split at he
  · rename_i hcb
    rw [List.mem_singleton.mp he]
    simp [is_report, is_error, hcb]
  · cases he

theorem is_report_not_null (W : World) (e : Event) (h : is_report W e = true) (t : Trace) :
    null_scanline W t e = false := by
  cases e <;> simp_all [is_report, is_error, null_scanline]

theorem after_null_append (W : World) (b b2 : List Event) (hb : after_null W b)
    (hb2 : ∀ e ∈ b2, is_report W e = true) : after_null W (b ++ b2) := by
  obtain ⟨h1, h2⟩ := hb
  constructor
  · intro e he
    rcases List.mem_append.mp he with h | h
    · exact h1 e h
    · exact hb2 e h
  · by_cases hcb : W.has_cb = true
    · cases b with
      | nil => simp [null_report, hcb] at h2
      | cons x xs => simpa using h2
    · have hb2nil : b2 = [] := by
        cases b2 with
        | nil => rfl
        | cons x xs =>
          have := hb2 x (List.mem_cons_self x xs)
          simp [is_report] at this
          exact absurd this.1 hcb
      rw [hb2nil, List.append_nil]
      exact h2

theorem after_null_report (W : World) : after_null W (null_report W) := by
  constructor
  · intro e he
    unfold null_report at he
    split at he
    · rename_i hcb
      rw [List.mem_singleton.mp he]
      simp [is_report, is_error, hcb]
    · cases he
  · rfl

theorem after_null_clean (W : World) (tr : Trace) (b : List Event) (h : after_null W b) :
    Clean (null_scanline W) tr b :=
  clean_of_forall _ _ (fun e he t => is_report_not_null W e (h.1 e he) t)

theorem scanline_loop_stops (W : World) (s : Surface) (width height yOffset : Int) :
    ∀ (n : Nat) (y : Int),
      StopsAt (null_scanline W) (fun b => b = null_report W) (fun d : Bool => d = false)
        (scanline_loop W s width height yOffset n y) := by
  intro n
  induction n with
  | zero =>
    intro y tr
    left
    unfold scanline_loop
    split
    · trivial
    · trivial
  | succ n ih =>
    intro y tr
    unfold scanline_loop
    split
    · rw [run_call_bind]
      cases hs : W.start_scanline tr (int_add y yOffset) with
      | false =>
        right
        simp only [if_true, run_report_bind, run_pure, List.append_nil]
        constructor
        · left
          exact ⟨by simp [null_scanline, hs], rfl⟩
        · exact Or.inl ⟨false, rfl, rfl⟩
      | true =>
        simp only [Bool.true_eq_false, if_false, run_emit_bind, run_call_bind]
        cases he : W.end_scanline (tr ++ [Event.start_scanline (int_add y yOffset)] ++
            [Event.write_scanline (int_add y yOffset) (scanline_data W s y width)]) with
        | false =>
          left
          simp only [if_true, run_report_bind, run_pure, List.append_nil]
          refine ⟨by simp [null_scanline, hs], rfl, rfl, ?_⟩
          apply clean_of_forall
          intro e he2 t
          split at he2
          · rw [List.mem_singleton.mp he2]; rfl
          · cases he2
        | true =>
          simp only [Bool.true_eq_false, if_false]
          rcases ih (int_add y 1) (tr ++ [Event.start_scanline (int_add y yOffset)] ++
            [Event.write_scanline (int_add y yOffset) (scanline_data W s y width)] ++
            [Event.end_scanline]) with h | ⟨h1, h2⟩
          · left
            exact ⟨by simp [null_scanline, hs], rfl, rfl, h⟩
          · right
            refine ⟨?_, h2⟩
            right
            refine ⟨by simp [null_scanline, hs], ?_⟩
            right
            refine ⟨rfl, ?_⟩
            right
            exact ⟨rfl, h1⟩
    · left
      trivial

theorem scanline_loop_no_return (W : World) (s : Surface) (width height yOffset : Int) :
    ∀ (n : Nat) (y : Int) (tr : Trace) (b : Bool),
      (scanline_loop W s width height yOffset n y tr).2 ≠ Except.error (Outcome.returned b) := by
  intro n
  induction n with
  | zero =>
    intro y tr b
    unfold scanline_loop
    split <;> simp
  | succ n ih =>
    intro y tr b
    unfold scanline_loop
    split
    · rw [run_call_bind]
      cases hs : W.start_scanline tr (int_add y yOffset) with
      | false => simp [run_report_bind]
      | true =>
        simp only [Bool.true_eq_false, if_false, run_emit_bind, run_call_bind]
        cases he : W.end_scanline (tr ++ [Event.start_scanline (int_add y yOffset)] ++
            [Event.write_scanline (int_add y yOffset) (scanline_data W s y width)]) with
        | false => simp [run_report_bind]
        | true =>
          simp only [Bool.true_eq_false, if_false]
          exact ih _ _ b
    · simp


theorem stops_mono {bad : Trace → Event → Bool} {T T2 : List Event → Prop} {α : Type}
    {F : α → Prop} {m : Run α} (h : StopsAt bad T F m) (hT : ∀ b, T b → T2 b) :
    StopsAt bad T2 F m := by
  intro tr
  rcases h tr with h1 | ⟨h1, h2⟩
  · exact Or.inl h1
  · exact Or.inr ⟨broken_mono hT _ _ h1, h2⟩

theorem stops_pure {bad : Trace → Event → Bool} {T : List Event → Prop} {α : Type}
    {F : α → Prop} (a : α) : StopsAt bad T F (pure a : Run α) :=
  stops_of_clean (fun _ => trivial)

theorem stops_leave {bad : Trace → Event → Bool} {T : List Event → Prop} {α : Type}
    {F : α → Prop} (o : Outcome) : StopsAt bad T F (leave o : Run α) :=
  stops_of_clean (fun _ => trivial)

theorem stops_ask {bad : Trace → Event → Bool} {T : List Event → Prop} {α : Type}
    {F : α → Prop} (a : Trace → α) : StopsAt bad T F (ask a) :=
  stops_of_clean (fun _ => trivial)

theorem stops_emit {bad : Trace → Event → Bool} {T : List Event → Prop}
    {F : Unit → Prop} {e : Event} (h : ∀ t, bad t e = false) : StopsAt bad T F (emit e) :=
  stops_of_clean (fun t => ⟨h t, trivial⟩)

theorem stops_call {bad : Trace → Event → Bool} {T : List Event → Prop} {α : Type}
    {F : α → Prop} {e : Event} (a : Trace → α) (h : ∀ t, bad t e = false) :
    StopsAt bad T F (call e a) :=
  stops_of_clean (fun t => ⟨h t, trivial⟩)

theorem stops_report (W : World) {T : List Event → Prop} {F : Unit → Prop} (m : Message) :
    StopsAt (null_scanline W) T F (report W m) :=
  stops_of_clean (fun t => clean_of_forall _ _
    (fun e he t2 => is_report_not_null W e (report_is_report W m t e he) t2))

theorem setup_not_null (W : World) (e : Event) (h : is_setup_call e = true) (t : Trace) :
    null_scanline W t e = false := by
  cases e <;> simp_all [is_setup_call, null_scanline]

theorem report_leave_fails (W : World) (m : Message) (tr : Trace) :
    (∀ e ∈ ((report W m >>= fun _ => (leave (Outcome.returned false) : Run Unit)) tr).1,
        is_report W e = true) ∧
      Halted (fun _ : Unit => False)
        ((report W m >>= fun _ => (leave (Outcome.returned false) : Run Unit)) tr).2 := by
  rw [run_report_bind]
  simp only [run_leave, List.append_nil]
  refine ⟨?_, Or.inr rfl⟩
  intro e he
  have := report_is_report W m tr e
  rw [run_report] at this
  exact this he

theorem process_block_alpha_stops (W : World) (s : Surface) (width height yOffset : Int) :
    StopsAt (null_scanline W) (after_null W) (fun d : Bool => d = false)
      (process_block_alpha W s width height yOffset) :=
  stops_mono (scanline_loop_stops W s width height yOffset _ _)
    (fun b hb => by rw [hb]; exact after_null_report W)

theorem add_frame_stops (W : World) (s : Surface) :
    StopsAt (null_scanline W) (after_null W) (fun d : Bool => d = false) (add_frame W s) := by
  unfold add_frame
  refine stops_bind (F := fun _ => False) (after_null_append W)
    (stops_call _ (fun _ => rfl)) (fun started => ?_) (fun _ h => h.elim)
  split
  · exact stops_bind (F := fun _ => False) (after_null_append W) (stops_report W _)
      (fun _ => stops_pure _) (fun _ h => h.elim)
  · refine stops_bind (after_null_append W) (process_block_alpha_stops W s _ _ _)
      (fun done => ?_) ?_
    · split
      · exact stops_pure _
      · exact stops_bind (F := fun _ => False) (after_null_append W)
          (stops_emit (fun _ => rfl)) (fun _ => stops_pure _) (fun _ h => h.elim)
    · intro done hd tr
      rw [hd]
      simp only [if_true, run_pure]
      exact ⟨fun e he => (by cases he), Or.inl ⟨false, rfl, rfl⟩⟩

theorem stream_block_stops (W : World) (surface : SurfaceResource) (blockrd : RendDesc)
    (y_offset : Int) :
    StopsAt (null_scanline W) (after_null W) (fun _ : Unit => False)
      (stream_block W surface blockrd y_offset) := by
  unfold stream_block
  refine stops_bind (F := fun _ => False) (after_null_append W)
    (stops_call _ (fun _ => rfl)) (fun lock => ?_) (fun _ h => h.elim)
  split
  · exact stops_bind (F := fun _ => False) (after_null_append W) (stops_report W _)
      (fun _ => stops_leave _) (fun _ h => h.elim)
  · refine stops_bind (F := fun _ => False) (after_null_append W) (stops_ask _)
      (fun px => ?_) (fun _ h => h.elim)
    refine stops_bind (after_null_append W) (process_block_alpha_stops W _ _ _ _)
      (fun done => ?_) ?_
    · split
      · exact stops_leave _
      · exact stops_pure _
    · intro done hd tr
      rw [hd]
      simp only [if_true, run_leave]
      exact ⟨fun e he => (by cases he), Or.inr rfl⟩

theorem call_renderer_stops (W : World) (rd : RendDesc) :
    StopsAt (null_scanline W) (after_null W) (fun _ : Bool × SurfaceResource => False)
      (call_renderer W rd) :=
  stops_of_emits (call_renderer_setup W rd) (setup_not_null W)

theorem split_loop_stops (W : World) (rh rws lrh : Int) :
    ∀ (n : Nat) (i : Int),
      StopsAt (null_scanline W) (after_null W) (fun _ : Unit => False)
        (split_loop W rh rws lrh n i) := by
  intro n
  induction n with
  | zero =>
    intro i
    unfold split_loop
    split
    · exact stops_leave _
    · exact stops_pure _
  | succ n ih =>
    intro i
    unfold split_loop
    split
    · refine stops_bind (F := fun _ => False) (after_null_append W)
        (stops_emit (fun _ => rfl)) (fun _ => ?_) (fun _ h => h.elim)
      split
      · exact stops_pure _
      · refine stops_bind (after_null_append W) (call_renderer_stops W _)
          (fun r => ?_) (fun _ h => h.elim)
        split
        · exact stops_bind (F := fun _ => False) (after_null_append W) (stops_report W _)
            (fun _ => stops_leave _) (fun _ h => h.elim)
        · exact stops_bind (after_null_append W) (stream_block_stops W _ _ _)
            (fun _ => ih _) (fun _ h => h.elim)
    · exact stops_pure _

theorem split_frame_stops (W : World) :
    StopsAt (null_scanline W) (after_null W) (fun _ : Unit => False) (split_frame W) := by
  unfold split_frame
  refine stops_bind (F := fun _ => False) (after_null_append W)
    (stops_emit (fun _ => rfl)) (fun _ => ?_) (fun _ h => h.elim)
  refine stops_bind (F := fun _ => False) (after_null_append W)
    (stops_call _ (fun _ => rfl)) (fun started => ?_) (fun _ h => h.elim)
  split
  · exact stops_bind (F := fun _ => False) (after_null_append W) (stops_report W _)
      (fun _ => stops_leave _) (fun _ h => h.elim)
  · refine stops_bind (after_null_append W) (split_loop_stops W _ _ _ _ _)
      (fun _ => ?_) (fun _ h => h.elim)
    exact stops_bind (F := fun _ => False) (after_null_append W)
      (stops_emit (fun _ => rfl)) (fun _ => stops_emit (fun _ => rfl)) (fun _ h => h.elim)

theorem whole_frame_stops (W : World) :
    StopsAt (null_scanline W) (after_null W) (fun _ : Unit => False) (whole_frame W) := by
  unfold whole_frame
  refine stops_bind (after_null_append W) (call_renderer_stops W _)
    (fun r => ?_) (fun _ h => h.elim)
  split
  · exact stops_bind (F := fun _ => False) (after_null_append W) (stops_report W _)
      (fun _ => stops_leave _) (fun _ h => h.elim)
  · refine stops_bind (F := fun _ => False) (after_null_append W)
      (stops_call _ (fun _ => rfl)) (fun lock => ?_) (fun _ h => h.elim)
    split
    · exact stops_bind (F := fun _ => False) (after_null_append W) (stops_report W _)
        (fun _ => stops_leave _) (fun _ h => h.elim)
    · refine stops_bind (F := fun _ => False) (after_null_append W) (stops_ask _)
        (fun px => ?_) (fun _ h => h.elim)
      refine stops_bind (after_null_append W) (add_frame_stops W _) (fun added => ?_) ?_
      · split
        · exact stops_bind (F := fun _ => False) (after_null_append W) (stops_report W _)
            (fun _ => stops_leave _) (fun _ h => h.elim)
        · exact stops_pure _
      · intro added hd tr
        rw [hd]
        simp only [if_true]
        exact report_leave_fails W _ tr

theorem frame_body_stops (W : World) :
    StopsAt (null_scanline W) (after_null W) (fun _ : Unit => False) (frame_body W) := by
  unfold frame_body
  split
  · exact split_frame_stops W
  · exact whole_frame_stops W

theorem frame_iteration_stops (W : World) :
    StopsAt (null_scanline W) (after_null W) (fun _ : Int => False) (frame_iteration W) := by
  unfold frame_iteration
  refine stops_bind (F := fun _ => False) (after_null_append W)
    (stops_call _ (fun _ => rfl)) (fun nf => ?_) (fun _ h => h.elim)
  refine stops_bind (F := fun _ => False) (after_null_append W) ?_ (fun go_on => ?_)
    (fun _ h => h.elim)
  · split
    · exact stops_call _ (fun _ => rfl)
    · exact stops_pure _
  · split
    · exact stops_leave _
    · refine stops_bind (F := fun _ => False) (after_null_append W)
        (stops_of_emits (sync_scene_setup W _) (setup_not_null W)) (fun _ => ?_)
        (fun _ h => h.elim)
      exact stops_bind (after_null_append W) (frame_body_stops W) (fun _ => stops_pure _)
        (fun _ h => h.elim)

theorem frame_loop_stops (W : World) :
    ∀ (fuel : Nat),
      StopsAt (null_scanline W) (after_null W) (fun _ : Unit => False) (frame_loop W fuel) := by
  intro fuel
  induction fuel with
  | zero =>
    unfold frame_loop
    exact stops_leave _
  | succ n ih =>
    unfold frame_loop
    refine stops_bind (after_null_append W) (frame_iteration_stops W) (fun frames => ?_)
      (fun _ h => h.elim)
    split
    · exact ih
    · exact stops_pure _


/-- Claim C7. Whenever a call `start_scanline(y + yOffset)` made by
`process_block_alpha` answers null, for any row of any block,
`process_block_alpha` reports the error through the callback when there is one
and returns false, making no other call (no `end_scanline` for that row, no
`start_scanline` or `end_scanline` for a later row); and in a run of `render`,
after such a call `render` returns false and makes no call but error reports,
the first of them that report when there is a callback and none without a
callback: no further block or frame is rendered and `end_frame` is not
called. -/
theorem C7_null_scanline_aborts (W : World) :
    (∀ (s : Surface) (width height yOffset : Int) (tr : Trace) (a b : List Event) (row : Int)
        (r : Except Outcome Bool),
      process_block_alpha W s width height yOffset tr = (a ++ Event.start_scanline row :: b, r) →
      W.start_scanline (tr ++ a) row = false →
        r = Except.ok false ∧
        b = if W.has_cb = true then [Event.error Message.start_scanline_returned_nullptr]
          else []) ∧
    (∀ (fuel : Nat) (pre post : List Event) (row : Int) (o : Outcome),
      render W fuel = (pre ++ Event.start_scanline row :: post, o) →
      W.start_scanline pre row = false →
        o = Outcome.returned false ∧
        (∀ e ∈ post, ∃ m, e = Event.error m) ∧
        post.head? = if W.has_cb = true
          then some (Event.error Message.start_scanline_returned_nullptr) else none) := by
  constructor
  · intro s width height yOffset tr a b row r hrun hnull
    have hbad : null_scanline W (tr ++ a) (Event.start_scanline row) = true := by
      simp [null_scanline, hnull]
    have h1 := congrArg Prod.fst hrun
    have h2 := congrArg Prod.snd hrun
    simp only at h1 h2
    unfold process_block_alpha at h1 h2
    rcases scanline_loop_stops W s width height yOffset height.toNat 0 tr with hc | ⟨hb, hh⟩
    · rw [h1] at hc
      exact (clean_not_broken _ _ _ _ hc hbad).elim
    · rw [h1] at hb
      rw [h2] at hh
      obtain ⟨_, hT⟩ := broken_split
        (fun t b hb => by rw [hb]; exact after_null_clean W t _ (after_null_report W))
        _ _ _ _ hb hbad
      refine ⟨?_, hT⟩
      rcases hh with ⟨d, hd1, hd2⟩ | hh
      · rw [hd1, hd2]
      · exact absurd (h2.trans hh) (scanline_loop_no_return W s width height yOffset _ _ _ _)
  · intro fuel pre post row o hrun hnull
    have hbad : null_scanline W ([] ++ pre) (Event.start_scanline row) = true := by
      simp [null_scanline, hnull]
    have herr : ∀ t m, null_scanline W t (Event.error m) = false := fun _ _ => rfl
    unfold render at hrun
    by_cases hinit : W.init [] = false
    · rw [if_pos hinit] at hrun
      exfalso
      have h1 := congrArg Prod.fst hrun
      simp only at h1
      have hc : Clean (null_scanline W) [] ([Event.init] ++
          (report W Message.target_initialization_failure [Event.init]).1) := by
        refine clean_append _ _ _ ⟨rfl, trivial⟩ (clean_errors _ herr _ _ ?_)
        intro e he
        rw [run_report] at he
        split at he
        · exact ⟨_, List.mem_singleton.mp he⟩
        · cases he
      rw [h1] at hc
      exact clean_not_broken _ _ _ _ hc hbad
    · rw [if_neg hinit] at hrun
      rcases frame_loop_stops W fuel [Event.init] with h | ⟨hb, hh⟩
      · exfalso
        obtain ⟨extra, he1, he2⟩ := catch_clauses_trace W
          ([Event.init] ++ (frame_loop W fuel [Event.init]).1)
          (frame_loop W fuel [Event.init]).2
        have h1 := congrArg Prod.fst hrun
        simp only at h1
        rw [he1] at h1
        have hc : Clean (null_scanline W) [] ([Event.init] ++
            (frame_loop W fuel [Event.init]).1 ++ extra) :=
          clean_append _ _ _ (clean_append _ _ _ ⟨rfl, trivial⟩ (by simpa using h))
            (clean_errors _ herr _ _ he2)
        rw [h1] at hc
        exact clean_not_broken _ _ _ _ hc hbad
      · rcases hh with ⟨_, _, hF⟩ | hh
        · exact hF.elim
        · rw [hh] at hrun
          have ht := congrArg Prod.fst hrun
          have ho := congrArg Prod.snd hrun
          simp only [catch_clauses] at ht ho
          have hb2 : Broken (null_scanline W) (after_null W) []
              ([Event.init] ++ (frame_loop W fuel [Event.init]).1) :=
            broken_append_left _ _ _ ⟨rfl, trivial⟩ (by simpa using hb)
          rw [ht] at hb2
          obtain ⟨_, hT1, hT2⟩ := broken_split (fun t b hb => after_null_clean W t b hb)
            _ _ _ _ hb2 hbad
          refine ⟨ho.symm, ?_, ?_⟩
          · intro e he
            have := hT1 e he
            cases e <;> simp_all [is_report, is_error]
          · rw [hT2]
            unfold null_report
            split <;> rfl

/-- Instance of C7: in the small example job the sink answers null at row 0
of the first frame; `process_block_alpha` and then `render` return false, and
after the failed `start_scanline(0)` only error reports are made. -/
theorem C7_null_scanline_aborts_witness :
    render null_world 5 =
      (null_calls ++ Event.start_scanline 0 ::
        [Event.error Message.start_scanline_returned_nullptr,
          Event.error Message.unable_to_put_surface_on_target],
        Outcome.returned false) ∧
    (∀ e ∈ [Event.error Message.start_scanline_returned_nullptr,
        Event.error Message.unable_to_put_surface_on_target], ∃ m, e = Event.error m) ∧
    process_block_alpha null_world ⟨2, 1, fun _ _ => ⟨0, 0, 0, 1⟩⟩ 2 1 0 null_calls =
      ([Event.start_scanline 0, Event.error Message.start_scanline_returned_nullptr],
        Except.ok false) :=
  ⟨by decide,
    ((C7_null_scanline_aborts null_world).2 5 null_calls
      [Event.error Message.start_scanline_returned_nullptr,
        Event.error Message.unable_to_put_surface_on_target] 0 (Outcome.returned false)
      (by decide) (by decide)).2.1,
    rfl⟩

/-! ## Thrown values -/

/-- Claim C9. `render` lets a thrown value escape only when it is of unknown
kind. When the `try` block (the frame loop) ends by throwing a String, `render`
reports "Caught string: ..." through the callback when there is one and
returns false; when it ends by an allocation failure, `render` reports the
out-of-memory message through the callback when there is one and returns
false; for any other thrown value it reports through the callback when there
is one and rethrows the same value. Whenever `render` ends by a thrown value,
that value is of unknown kind and was thrown inside the frame loop. And
`call_renderer` throws the String "Renderer '<engine>' not found" when the
scene yields a task and the named engine does not resolve. -/
theorem C9_only_unknown_escapes (W : World) (fuel : Nat) :
    (∀ s, W.init [] = true →
      (frame_loop W fuel [Event.init]).2 = Except.error (Outcome.threw (Thrown.string s)) →
      render W fuel =
        ([Event.init] ++ (frame_loop W fuel [Event.init]).1 ++
          (if W.has_cb = true then [Event.error (Message.caught_string s)] else []),
          Outcome.returned false)) ∧
    (W.init [] = true →
      (frame_loop W fuel [Event.init]).2 = Except.error (Outcome.threw Thrown.bad_alloc) →
      render W fuel =
        ([Event.init] ++ (frame_loop W fuel [Event.init]).1 ++
          (if W.has_cb = true then [Event.error Message.ran_out_of_memory] else []),
          Outcome.returned false)) ∧
    (∀ tag, W.init [] = true →
      (frame_loop W fuel [Event.init]).2 = Except.error (Outcome.threw (Thrown.unknown tag)) →
      render W fuel =
        ([Event.init] ++ (frame_loop W fuel [Event.init]).1 ++
          (if W.has_cb = true then [Event.error Message.caught_unknown_error_rethrowing]
            else []),
          Outcome.threw (Thrown.unknown tag))) ∧
    (∀ e, (render W fuel).2 = Outcome.threw e →
      ∃ tag, e = Thrown.unknown tag ∧
        (frame_loop W fuel [Event.init]).2 = Except.error (Outcome.threw (Thrown.unknown tag))) ∧
    (∀ (rd : RendDesc) (tr : Trace) (scene_task : Nat),
      W.create_throws (tr ++ [Event.call_renderer rd]) = none →
      W.build_rendering_task
        (tr ++ [Event.call_renderer rd] ++ [Event.surface_create rd.w rd.h]) = some scene_task →
      W.get_renderer (tr ++ [Event.call_renderer rd] ++ [Event.surface_create rd.w rd.h]
        ++ [Event.build_rendering_task]) W.engine = false →
      call_renderer W rd tr =
        ([Event.call_renderer rd, Event.surface_create rd.w rd.h, Event.build_rendering_task,
          Event.get_renderer W.engine],
          Except.error (Outcome.threw (Thrown.string (renderer_not_found W.engine))))) := by
  refine ⟨?_, ?_, ?_, ?_, ?_⟩
  · intro s hinit hthrow
    unfold render
    rw [if_neg (by simp [hinit]), hthrow]
    simp only [catch_clauses, run_report]
  · intro hinit hthrow
    unfold render
    rw [if_neg (by simp [hinit]), hthrow]
    simp only [catch_clauses, run_report]
  · intro tag hinit hthrow
    unfold render
    rw [if_neg (by simp [hinit]), hthrow]
    simp only [catch_clauses, run_report]
  · intro e he
    unfold render at he
    by_cases hinit : W.init [] = false
    · rw [if_pos hinit] at he
      cases he
    · rw [if_neg hinit] at he
      cases hr : (frame_loop W fuel [Event.init]).2 with
      | ok u => rw [hr] at he; cases he
      | error o =>
        rw [hr] at he
        cases o with
        | returned b => cases he
        | out_of_fuel => cases he
        | threw t =>
          cases t with
          | string s => cases he
          | bad_alloc => cases he
          | unknown tag =>
            simp only [catch_clauses] at he
            cases he
            exact ⟨tag, rfl, rfl⟩
  · intro rd tr scene_task hcreate htask hengine
    unfold call_renderer
    rw [run_emit_bind, run_bind_ok (run_call_throwing_none hcreate), run_call_bind, htask]
    simp only [run_call_bind, hengine, if_true, run_leave]
    rfl

/-- Instance of C9: in the small example job the engine name does not
resolve; `call_renderer` throws the String in the first frame, and `render`
reports it and returns false. With an engine that throws a value of unknown
kind, `render` reports and rethrows it. -/
theorem C9_only_unknown_escapes_witness :
    render no_engine_world 5 =
      (engine_lookup_calls ++
        [Event.error (Message.caught_string (renderer_not_found "software"))],
        Outcome.returned false) ∧
    (render faulty_engine_world 5).2 = Outcome.threw (Thrown.unknown 7) ∧
    (render faulty_engine_world 5).1.getLast? =
      some (Event.error Message.caught_unknown_error_rethrowing) :=
  ⟨((C9_only_unknown_escapes no_engine_world 5).1 (renderer_not_found "software")
      rfl rfl).trans (by decide),
    by decide, by decide⟩

end TargetScanline
